import Mathlib

/-! Verification of the watchr file-watching core. This file gives a shallow
embedding of the data structures and operations of the repository
(SetMultiMap, WatchrStats, FileSystemStateManager, RetryQueue,
FileSystem.getStats, LockResolver and FileRenameHandler) and proves theorems
about the behaviour the specification describes. JavaScript Maps are modelled
as insertion-ordered association lists, JavaScript Sets as insertion-ordered
duplicate-free lists, and the callback closures of the rename correlator are
defunctionalised into the data they capture. -/

namespace Watchr

/-- Paths are plain strings (src/src/@types: type Path = string). -/
abbrev Path := String

/-- Inode numbers (src/src/@types: type InodeNumber = bigint | number),
modelled as integers. -/
abbrev InodeNumber := Int

/-- Lookup in an insertion-ordered association list, modelling Map.get. -/
def jsGet {K V : Type} [DecidableEq K] : List (K × V) → K → Option V
  | [], _ => none
  | (k, v) :: rest, key => if k = key then some v else jsGet rest key

/-- Update of an insertion-ordered association list, modelling Map.set: the
value is replaced in place when the key is present, otherwise the pair is
appended at the end. -/
def jsSet {K V : Type} [DecidableEq K] : List (K × V) → K → V → List (K × V)
  | [], key, v => [(key, v)]
  | (k, w) :: rest, key, v =>
    if k = key then (key, v) :: rest else (k, w) :: jsSet rest key v

/-- Deletion from an association list, modelling Map.delete. -/
def jsDelete {K V : Type} [DecidableEq K] : List (K × V) → K → List (K × V)
  | [], _ => []
  | (k, v) :: rest, key => if k = key then rest else (k, v) :: jsDelete rest key

/-- Insertion into a JavaScript Set kept as an insertion-ordered
duplicate-free list: Set.add appends the value unless it is already present. -/
def setAdd {V : Type} [DecidableEq V] (s : List V) (v : V) : List V :=
  if v ∈ s then s else s ++ [v]

/-- SetMultiMap (src/src/set-multi-map.ts): a Map from keys to Sets of
values. -/
abbrev SetMultiMap (K V : Type) := List (K × List V)

/-- SetMultiMap.set with a single value: stores
(super.get(key) ?? new Set()).add(value) back under the key. -/
def SetMultiMap.setOne {K V : Type} [DecidableEq K] [DecidableEq V]
    (m : SetMultiMap K V) (k : K) (v : V) : SetMultiMap K V :=
  jsSet m k (setAdd ((jsGet m k).getD []) v)

/-- SetMultiMap.deleteValue: with value undefined the whole key is deleted;
otherwise the value is removed from the set at the key, and the key is
dropped entirely when its set became empty. -/
def SetMultiMap.deleteValue {K V : Type} [DecidableEq K] [DecidableEq V]
    (m : SetMultiMap K V) (k : K) (v : Option V) : SetMultiMap K V :=
  match v with
  | none => jsDelete m k
  | some v =>
    match jsGet m k with
    | none => m
    | some values =>
      let remaining := values.erase v
      if remaining = [] then jsDelete m k else jsSet m k remaining

/-- SetMultiMap.find: the first value in the set at the key satisfying the
iterator predicate. -/
def SetMultiMap.findVal {K V : Type} [DecidableEq K]
    (m : SetMultiMap K V) (k : K) (p : V → Bool) : Option V :=
  ((jsGet m k).getD []).find? p

/-- The FileSystemEvent constants of src/src/constants.ts. -/
inductive FileSystemEvent where
  | add | addDir | change | rename | renameDir | unlink | unlinkDir
  deriving DecidableEq, Repr

/-- The InodeType constants of src/src/constants.ts (DIR = 1, FILE = 2). -/
inductive InodeType where
  | dir | file
  deriving DecidableEq, Repr

/-- WatchrStats (src/src/watchr-stats.ts): the retained subset of a stats
object. -/
structure WatchrStats where
  inodeNumber : InodeNumber
  size : Int
  isFile : Bool
  isDirectory : Bool
  isSymbolicLink : Bool
  deriving DecidableEq, Repr

/-- FileSystemStateManager.determineEvents: dispatch over the 4-bit pattern
hasOld(8) or hasNew(4) or wasFile(2) or isFile(1), where wasFile and isFile
default to false when the corresponding stats are absent. Each arm below is
the switch case with the same bit pattern; the default arm [] is reachable
only for pattern 0 because a file flag is never true without its stats. -/
def determineEvents (previousStats nextStats : Option WatchrStats) :
    List (FileSystemEvent × WatchrStats) :=
  let wasFile := previousStats.elim false WatchrStats.isFile
  let isFile := nextStats.elim false WatchrStats.isFile
  match previousStats, nextStats with
  | none, none => []
  | none, some next =>
    if isFile then [(.add, next)] else [(.addDir, next)]
  | some prev, none =>
    if wasFile then [(.unlink, prev)] else [(.unlinkDir, prev)]
  | some prev, some next =>
    match wasFile, isFile with
    | true, true => [(.change, next)]
    | true, false => [(.unlink, prev), (.addDir, next)]
    | false, true => [(.unlinkDir, prev), (.add, next)]
    | false, false => [(.unlinkDir, prev), (.addDir, next)]

/-- The mutable state of a FileSystemStateManager: the per-event observed
inode table, the inode-to-paths SetMultiMap and the path-to-stats cache. -/
structure FileSystemStateManager where
  targetInodes : List (FileSystemEvent × List (Path × (InodeNumber × InodeType)))
  paths : SetMultiMap InodeNumber Path
  stats : List (Path × WatchrStats)
  deriving DecidableEq, Repr

/-- A freshly constructed FileSystemStateManager. -/
def FileSystemStateManager.empty : FileSystemStateManager := ⟨[], [], []⟩

/-- FileSystemStateManager.getInodeNumber: destructures
targetInodes[event]?.[targetPath] ?? [] and returns undefined when a type is
given and the recorded inode type differs (both recorded components are
undefined when the record is missing, so a missing record with a type given
also yields undefined). -/
def FileSystemStateManager.getInodeNumber (s : FileSystemStateManager)
    (targetPath : Path) (event : FileSystemEvent) (type : Option InodeType) :
    Option InodeNumber :=
  match jsGet ((jsGet s.targetInodes event).getD []) targetPath with
  | none => none
  | some (inodeNumber, inodeType) =>
    match type with
    | none => some inodeNumber
    | some t => if inodeType ≠ t then none else some inodeNumber

/-- FileSystemStateManager.updateStats: with stats present, records the path
under the inode in the SetMultiMap and stores the stats; with stats absent,
removes the path from the set of its cached inode (key -1 when nothing is
cached) and deletes the cache entry. -/
def FileSystemStateManager.updateStats (s : FileSystemStateManager)
    (targetPath : Path) (stats : Option WatchrStats) : FileSystemStateManager :=
  match stats with
  | some st =>
    { s with
      paths := s.paths.setOne st.inodeNumber targetPath
      stats := jsSet s.stats targetPath st }
  | none =>
    { s with
      paths := s.paths.deleteValue
        ((jsGet s.stats targetPath).elim (-1) WatchrStats.inodeNumber)
        (some targetPath)
      stats := jsDelete s.stats targetPath }

/-- FileSystemStateManager.updateInode: targetInodes[event][targetPath] is
set to the pair of the inode number of the stats and FILE or DIR according
to stats.isFile(). -/
def FileSystemStateManager.updateInode (s : FileSystemStateManager)
    (targetPath : Path) (event : FileSystemEvent) (stats : WatchrStats) :
    FileSystemStateManager :=
  { s with
    targetInodes :=
      jsSet s.targetInodes event
        (jsSet ((jsGet s.targetInodes event).getD []) targetPath
          (stats.inodeNumber, if stats.isFile then InodeType.file else InodeType.dir)) }

/-- FileSystemStateManager.updateInodes: updateInode for every determined
event in order. -/
def FileSystemStateManager.updateInodes (s : FileSystemStateManager)
    (targetPath : Path) (events : List (FileSystemEvent × WatchrStats)) :
    FileSystemStateManager :=
  events.foldl (fun acc e => acc.updateInode targetPath e.1 e.2) s

/-- The filter in FileSystemStateManager.getStats: stats that are neither a
regular file nor a directory are discarded (treated as absent). -/
def filterStats (stats : Option WatchrStats) : Option WatchrStats :=
  match stats with
  | none => none
  | some st => if st.isFile || st.isDirectory then some st else none

/-- FileSystemStateManager.update, with the freshly fetched metadata (the
result of this.getStats, already filtered to files and directories) passed
as an explicit argument: determines the events from the cached and the fresh
stats, updates the cache and the inode structures, and returns the event
types. -/
def FileSystemStateManager.update (s : FileSystemStateManager)
    (targetPath : Path) (nextStats : Option WatchrStats) :
    List FileSystemEvent × FileSystemStateManager :=
  let events := determineEvents (jsGet s.stats targetPath) nextStats
  let s1 := s.updateStats targetPath nextStats
  let s2 := s1.updateInodes targetPath events
  (events.map Prod.fst, s2)

/-- The nine-row classification table exactly as the specification states it,
as a decision over the four booleans had-previous, has-next,
previous-was-file and next-is-file (a false file flag with metadata present
means directory). This definition is written from the words of the
specification, to be compared against determineEvents. -/
def classificationTable (hadPrev hasNext wasFile nextIsFile : Bool) :
    List FileSystemEvent :=
  match hadPrev, hasNext, wasFile, nextIsFile with
  | false, false, _, _ => []
  | false, true, _, false => [.addDir]
  | false, true, _, true => [.add]
  | true, false, false, _ => [.unlinkDir]
  | true, false, true, _ => [.unlink]
  | true, true, true, true => [.change]
  | true, true, true, false => [.unlink, .addDir]
  | true, true, false, true => [.unlinkDir, .add]
  | true, true, false, false => [.unlinkDir, .addDir]

/-- C1: for every call to FileSystemStateManager.update, the returned event
list is exactly the one given by the nine-row classification table over
(previous present, next present, previous is-file, next is-file), in the
fixed order of each row. -/
theorem update_matches_classification_table
    (s : FileSystemStateManager) (targetPath : Path)
    (nextStats : Option WatchrStats) :
    (s.update targetPath nextStats).1 =
      classificationTable (jsGet s.stats targetPath).isSome nextStats.isSome
        ((jsGet s.stats targetPath).elim false WatchrStats.isFile)
        (nextStats.elim false WatchrStats.isFile) := by
  rcases h : jsGet s.stats targetPath with _ | prev <;>
    rcases nextStats with _ | next
  · simp [FileSystemStateManager.update, determineEvents, h, classificationTable]
  · rcases hn : next.isFile with _ | _ <;>
      simp [FileSystemStateManager.update, determineEvents, h, hn,
        classificationTable]
  · rcases hw : prev.isFile with _ | _ <;>
      simp [FileSystemStateManager.update, determineEvents, h, hw,
        classificationTable]
  · rcases hw : prev.isFile with _ | _ <;> rcases hn : next.isFile with _ | _ <;>
      simp [FileSystemStateManager.update, determineEvents, h, hw, hn,
        classificationTable]

/-! Association-list lemmas shared by the invariant proofs. -/


theorem jsGet_set_eq {K V : Type} [DecidableEq K] (l : List (K × V)) (k : K)
    (v : V) : jsGet (jsSet l k v) k = some v := by
  induction l with
  | nil => simp [jsSet, jsGet]
  | cons hd tl ih =>
    obtain ⟨a, b⟩ := hd
    by_cases h : a = k
    · simp [jsSet, jsGet, h]
    · simp [jsSet, jsGet, h, ih]

theorem jsGet_set_ne {K V : Type} [DecidableEq K] (l : List (K × V))
    (k k' : K) (v : V) (h : k' ≠ k) :
    jsGet (jsSet l k v) k' = jsGet l k' := by
  have h2 : ¬ k = k' := fun hc => h hc.symm
  induction l with
  | nil => simp [jsSet, jsGet, h2]
  | cons hd tl ih =>
    obtain ⟨a, b⟩ := hd
    by_cases hak : a = k
    · subst hak
      simp [jsSet, jsGet, h2]
    · simp only [jsSet, if_neg hak]
      by_cases hak' : a = k'
      · simp [jsGet, hak']
      · simp [jsGet, hak', ih]

theorem jsGet_delete_ne {K V : Type} [DecidableEq K] (l : List (K × V))
    (k k' : K) (h : k' ≠ k) : jsGet (jsDelete l k) k' = jsGet l k' := by
  induction l with
  | nil => simp [jsDelete]
  | cons hd tl ih =>
    obtain ⟨a, b⟩ := hd
    by_cases hak : a = k
    · subst hak
      have h2 : ¬ a = k' := fun hc => h (hc.symm)
      simp [jsDelete, jsGet, h2]
    · simp only [jsDelete, if_neg hak]
      by_cases hak' : a = k'
      · simp [jsGet, hak']
      · simp [jsGet, hak', ih]

theorem jsGet_eq_none_of_not_mem_keys {K V : Type} [DecidableEq K]
    (l : List (K × V)) (k : K) (h : k ∉ l.map Prod.fst) :
    jsGet l k = none := by
  induction l with
  | nil => simp [jsGet]
  | cons hd tl ih =>
    obtain ⟨a, b⟩ := hd
    simp only [List.map_cons, List.mem_cons, not_or] at h
    have h2 : ¬ a = k := fun hc => h.1 hc.symm
    simp [jsGet, h2, ih h.2]

theorem mem_keys_delete {K V : Type} [DecidableEq K] (l : List (K × V))
    (k a : K) (h : a ∈ (jsDelete l k).map Prod.fst) :
    a ∈ l.map Prod.fst := by
  induction l with
  | nil => simp [jsDelete] at h
  | cons hd tl ih =>
    obtain ⟨x, y⟩ := hd
    by_cases hxk : x = k
    · simp only [jsDelete, if_pos hxk] at h
      simp [h]
    · simp only [jsDelete, if_neg hxk, List.map_cons, List.mem_cons] at h ⊢
      exact h.imp id ih

theorem jsGet_delete_eq {K V : Type} [DecidableEq K] (l : List (K × V))
    (k : K) (hnd : (l.map Prod.fst).Nodup) :
    jsGet (jsDelete l k) k = none := by
  induction l with
  | nil => simp [jsDelete, jsGet]
  | cons hd tl ih =>
    obtain ⟨a, b⟩ := hd
    simp only [List.map_cons, List.nodup_cons] at hnd
    by_cases hak : a = k
    · subst hak
      simp only [jsDelete, if_pos rfl]
      exact jsGet_eq_none_of_not_mem_keys tl a hnd.1
    · simp [jsDelete, jsGet, hak, ih hnd.2]

theorem keys_set_cases {K V : Type} [DecidableEq K] (l : List (K × V))
    (k : K) (v : V) :
    (jsSet l k v).map Prod.fst = l.map Prod.fst ∨
      (k ∉ l.map Prod.fst ∧
        (jsSet l k v).map Prod.fst = l.map Prod.fst ++ [k]) := by
  induction l with
  | nil => exact Or.inr (by simp [jsSet])
  | cons hd tl ih =>
    obtain ⟨x, y⟩ := hd
    by_cases hxk : x = k
    · subst hxk
      exact Or.inl (by simp [jsSet])
    · simp only [jsSet, if_neg hxk, List.map_cons]
      rcases ih with h | ⟨hnm, h⟩
      · exact Or.inl (by rw [h])
      · refine Or.inr ⟨?_, by rw [h, List.cons_append]⟩
        simp only [List.mem_cons, not_or]
        exact ⟨fun hc => hxk hc.symm, hnm⟩

theorem mem_keys_set {K V : Type} [DecidableEq K] (l : List (K × V))
    (k a : K) (v : V) (h : a ∈ (jsSet l k v).map Prod.fst) :
    a = k ∨ a ∈ l.map Prod.fst := by
  rcases keys_set_cases l k v with hc | ⟨_, hc⟩
  · rw [hc] at h
    exact Or.inr h
  · rw [hc] at h
    rcases List.mem_append.mp h with h | h
    · exact Or.inr h
    · exact Or.inl (by simpa using h)

theorem keys_nodup_set {K V : Type} [DecidableEq K] (l : List (K × V))
    (k : K) (v : V) (hnd : (l.map Prod.fst).Nodup) :
    ((jsSet l k v).map Prod.fst).Nodup := by
  rcases keys_set_cases l k v with hc | ⟨hnm, hc⟩
  · rw [hc]
    exact hnd
  · rw [hc]
    rw [List.nodup_append]
    exact ⟨hnd, List.nodup_singleton k, by
      intro a ha hb
      simp only [List.mem_singleton] at hb
      subst hb
      exact hnm ha⟩

theorem keys_nodup_delete {K V : Type} [DecidableEq K] (l : List (K × V))
    (k : K) (hnd : (l.map Prod.fst).Nodup) :
    ((jsDelete l k).map Prod.fst).Nodup := by
  induction l with
  | nil => simp [jsDelete]
  | cons hd tl ih =>
    obtain ⟨x, y⟩ := hd
    simp only [List.map_cons, List.nodup_cons] at hnd
    by_cases hxk : x = k
    · simp only [jsDelete, if_pos hxk]
      exact hnd.2
    · simp only [jsDelete, if_neg hxk, List.map_cons, List.nodup_cons]
      exact ⟨fun hm => hnd.1 (mem_keys_delete tl k x hm), ih hnd.2⟩

theorem mem_of_mem_set {K V : Type} [DecidableEq K] (l : List (K × V))
    (k : K) (v : V) (kv : K × V) (h : kv ∈ jsSet l k v) :
    kv ∈ l ∨ kv = (k, v) := by
  induction l with
  | nil => exact Or.inr (by simpa [jsSet] using h)
  | cons hd tl ih =>
    obtain ⟨x, y⟩ := hd
    by_cases hxk : x = k
    · simp only [jsSet, if_pos hxk, List.mem_cons] at h
      rcases h with h1 | h1
      · exact Or.inr h1
      · exact Or.inl (List.mem_cons_of_mem _ h1)
    · simp only [jsSet, if_neg hxk, List.mem_cons] at h
      rcases h with h1 | h1
      · exact Or.inl (by simp [h1])
      · rcases ih h1 with h2 | h2
        · exact Or.inl (List.mem_cons_of_mem _ h2)
        · exact Or.inr h2

theorem mem_of_mem_delete {K V : Type} [DecidableEq K] (l : List (K × V))
    (k : K) (kv : K × V) (h : kv ∈ jsDelete l k) : kv ∈ l := by
  induction l with
  | nil => simp [jsDelete] at h
  | cons hd tl ih =>
    obtain ⟨x, y⟩ := hd
    by_cases hxk : x = k
    · simp only [jsDelete, if_pos hxk] at h
      exact List.mem_cons_of_mem _ h
    · simp only [jsDelete, if_neg hxk, List.mem_cons] at h ⊢
      exact h.imp id ih

theorem jsDelete_of_get_none {K V : Type} [DecidableEq K] (l : List (K × V))
    (k : K) (h : jsGet l k = none) : jsDelete l k = l := by
  induction l with
  | nil => simp [jsDelete]
  | cons hd tl ih =>
    obtain ⟨x, y⟩ := hd
    by_cases hxk : x = k
    · simp [jsGet, hxk] at h
    · simp only [jsGet, if_neg hxk] at h
      simp [jsDelete, hxk, ih h]

theorem jsSet_of_get_eq {K V : Type} [DecidableEq K] (l : List (K × V))
    (k : K) (v : V) (h : jsGet l k = some v) : jsSet l k v = l := by
  induction l with
  | nil => simp [jsGet] at h
  | cons hd tl ih =>
    obtain ⟨x, y⟩ := hd
    by_cases hxk : x = k
    · subst hxk
      simp only [jsGet, eq_self_iff_true, if_true, Option.some.injEq] at h
      subst h
      simp [jsSet]
    · simp only [jsGet, if_neg hxk] at h
      simp [jsSet, hxk, ih h]

theorem mem_setAdd {V : Type} [DecidableEq V] (s : List V) (v a : V) :
    a ∈ setAdd s v ↔ a = v ∨ a ∈ s := by
  by_cases h : v ∈ s
  · simp only [setAdd, if_pos h]
    constructor
    · exact Or.inr
    · rintro (rfl | ha)
      · exact h
      · exact ha
  · simp [setAdd, if_neg h, or_comm]

theorem nodup_setAdd {V : Type} [DecidableEq V] (s : List V) (v : V)
    (h : s.Nodup) : (setAdd s v).Nodup := by
  by_cases hv : v ∈ s
  · simpa [setAdd, if_pos hv] using h
  · rw [setAdd, if_neg hv, List.nodup_append]
    refine ⟨h, List.nodup_singleton v, ?_⟩
    intro a ha hb
    simp only [List.mem_singleton] at hb
    subst hb
    exact hv ha

theorem setAdd_ne_nil {V : Type} [DecidableEq V] (s : List V) (v : V) :
    setAdd s v ≠ [] := by
  intro hc
  have hm := (mem_setAdd s v v).mpr (Or.inl rfl)
  rw [hc] at hm
  exact absurd hm (List.not_mem_nil v)

/-! Claim C4: behaviour of a second update call that observes nothing new. -/

theorem updateInodes_stats (s : FileSystemStateManager) (p : Path)
    (evs : List (FileSystemEvent × WatchrStats)) :
    (s.updateInodes p evs).stats = s.stats := by
  induction evs generalizing s with
  | nil => rfl
  | cons e tl ih =>
    simp only [FileSystemStateManager.updateInodes, List.foldl_cons] at *
    exact ih _

theorem updateInodes_paths (s : FileSystemStateManager) (p : Path)
    (evs : List (FileSystemEvent × WatchrStats)) :
    (s.updateInodes p evs).paths = s.paths := by
  induction evs generalizing s with
  | nil => rfl
  | cons e tl ih =>
    simp only [FileSystemStateManager.updateInodes, List.foldl_cons] at *
    exact ih _

/-- C4 (amended): when the second call observes exactly what is cached, the
path-to-metadata cache is left unchanged; the returned event list is empty
when both observations are absent, while with present (equal) metadata the
call still returns [change] for a file and [unlinkDir, addDir] for a
directory, per the classification table. -/
theorem update_second_observation (s : FileSystemStateManager)
    (targetPath : Path) (n : Option WatchrStats)
    (h : jsGet s.stats targetPath = n) :
    (s.update targetPath n).2.stats = s.stats ∧
    (n = none → (s.update targetPath n).1 = []) ∧
    (∀ m, n = some m →
      (s.update targetPath n).1 =
        if m.isFile then [FileSystemEvent.change]
        else [FileSystemEvent.unlinkDir, FileSystemEvent.addDir]) := by
  refine ⟨?_, ?_, ?_⟩
  · show (FileSystemStateManager.updateInodes _ _ _).stats = s.stats
    rw [updateInodes_stats]
    rcases n with _ | m
    · show (jsDelete s.stats targetPath) = s.stats
      exact jsDelete_of_get_none _ _ h
    · show (jsSet s.stats targetPath m) = s.stats
      exact jsSet_of_get_eq _ _ _ h
  · rintro rfl
    simp [FileSystemStateManager.update, determineEvents, h]
  · rintro m rfl
    rcases hf : m.isFile with _ | _ <;>
      simp [FileSystemStateManager.update, determineEvents, h, hf]

/-- Concrete file metadata used in the C4 scenario. -/
def c4Stats : WatchrStats :=
  { inodeNumber := 1, size := 10, isFile := true, isDirectory := false,
    isSymbolicLink := false }

/-- The state after update("/a") first observes c4Stats on an empty manager. -/
def c4State : FileSystemStateManager :=
  (FileSystemStateManager.empty.update "/a" (some c4Stats)).2

/-- C4 counterexample: the claim fails on a path that still exists. After an
update cached a regular file, a second update observing metadata equal to the
cached metadata returns [change], not the empty event list. -/
theorem update_not_idempotent_cex :
    jsGet c4State.stats "/a" = some c4Stats ∧
      (c4State.update "/a" (some c4Stats)).1 = [FileSystemEvent.change] ∧
      (c4State.update "/a" (some c4Stats)).1 ≠ [] := by decide

/-- Witness for update_second_observation at a concrete input. -/
theorem update_second_observation_witness :
    (c4State.update "/a" (some c4Stats)).2.stats = c4State.stats ∧
    (some c4Stats = none → (c4State.update "/a" (some c4Stats)).1 = []) ∧
    (∀ m, some c4Stats = some m →
      (c4State.update "/a" (some c4Stats)).1 =
        if m.isFile then [FileSystemEvent.change]
        else [FileSystemEvent.unlinkDir, FileSystemEvent.addDir]) :=
  update_second_observation c4State "/a" (some c4Stats) (by decide)

/-! Claim C9: SetMultiMap never maps a key to an empty set. -/

/-- An operation on a SetMultiMap: a single-value set call or a deleteValue
call (with the value possibly undefined). -/
inductive SMMOp (K V : Type) where
  | set (k : K) (v : V)
  | deleteValue (k : K) (v : Option V)

/-- Applies one SetMultiMap operation. -/
def SMMOp.apply {K V : Type} [DecidableEq K] [DecidableEq V]
    (m : SetMultiMap K V) : SMMOp K V → SetMultiMap K V
  | .set k v => m.setOne k v
  | .deleteValue k v => m.deleteValue k v

/-- Applies a sequence of SetMultiMap operations in order. -/
def applySMMOps {K V : Type} [DecidableEq K] [DecidableEq V]
    (m : SetMultiMap K V) (ops : List (SMMOp K V)) : SetMultiMap K V :=
  ops.foldl SMMOp.apply m

/-- The invariant: every key present in the SetMultiMap has a non-empty
value set. -/
def smmNonEmpty {K V : Type} (m : SetMultiMap K V) : Prop :=
  ∀ kv ∈ m, kv.2 ≠ ([] : List V)

theorem smmNonEmpty_setOne {K V : Type} [DecidableEq K] [DecidableEq V]
    (m : SetMultiMap K V) (k : K) (v : V) (h : smmNonEmpty m) :
    smmNonEmpty (m.setOne k v) := by
  intro kv hkv
  rcases mem_of_mem_set _ _ _ _ hkv with hm | hm
  · exact h kv hm
  · rw [hm]
    exact setAdd_ne_nil _ _

theorem smmNonEmpty_deleteValue {K V : Type} [DecidableEq K] [DecidableEq V]
    (m : SetMultiMap K V) (k : K) (v : Option V) (h : smmNonEmpty m) :
    smmNonEmpty (m.deleteValue k v) := by
  rcases v with _ | v
  · intro kv hkv
    exact h kv (mem_of_mem_delete _ _ _ hkv)
  · show smmNonEmpty (match jsGet m k with
      | none => m
      | some values =>
        let remaining := values.erase v
        if remaining = [] then jsDelete m k else jsSet m k remaining)
    rcases hg : jsGet m k with _ | values
    · simpa using h
    · simp only []
      by_cases hrem : values.erase v = []
      · rw [if_pos hrem]
        intro kv hkv
        exact h kv (mem_of_mem_delete _ _ _ hkv)
      · rw [if_neg hrem]
        intro kv hkv
        rcases mem_of_mem_set _ _ _ _ hkv with hm | hm
        · exact h kv hm
        · rw [hm]
          exact hrem

/-- C9: across every sequence of set and deleteValue operations, every key
present in the SetMultiMap keeps a non-empty value set: no key ever remains
mapped to an empty set. -/
theorem smm_ops_preserve_nonEmpty {K V : Type} [DecidableEq K] [DecidableEq V]
    (m : SetMultiMap K V) (ops : List (SMMOp K V)) (h : smmNonEmpty m) :
    smmNonEmpty (applySMMOps m ops) := by
  induction ops generalizing m with
  | nil => exact h
  | cons op tl ih =>
    rcases op with ⟨k, v⟩ | ⟨k, v⟩
    · exact ih _ (smmNonEmpty_setOne m k v h)
    · exact ih _ (smmNonEmpty_deleteValue m k v h)

/-- Witness for smm_ops_preserve_nonEmpty at a concrete input: a set of two
values under one key followed by deleting both values one by one. -/
theorem smm_ops_preserve_nonEmpty_witness :
    smmNonEmpty (applySMMOps ([] : SetMultiMap Nat String)
      [SMMOp.set 1 "a", SMMOp.set 1 "b", SMMOp.deleteValue 1 (some "a"),
        SMMOp.deleteValue 1 (some "b")]) :=
  smm_ops_preserve_nonEmpty [] _ (by intro kv hkv; simp at hkv)


/-! Claim C5: synchronisation of the inode index with the path cache. -/

theorem mem_of_jsGet_eq_some {K V : Type} [DecidableEq K] (l : List (K × V))
    (k : K) (v : V) (h : jsGet l k = some v) : (k, v) ∈ l := by
  induction l with
  | nil => simp [jsGet] at h
  | cons hd tl ih =>
    obtain ⟨x, y⟩ := hd
    by_cases hxk : x = k
    · subst hxk
      simp only [jsGet, eq_self_iff_true, if_true, Option.some.injEq] at h
      subst h
      exact List.mem_cons_self _ _
    · simp only [jsGet, if_neg hxk] at h
      exact List.mem_cons_of_mem _ (ih h)

/-- The specified invariant: a path belongs to the inode index entry of an
inode number exactly when the path cache currently maps it to metadata with
that inode number. -/
def FileSystemStateManager.inodeSync (s : FileSystemStateManager) : Prop :=
  ∀ (i : InodeNumber) (p : Path),
    p ∈ (jsGet s.paths i).getD [] ↔
      ∃ m, jsGet s.stats p = some m ∧ m.inodeNumber = i

/-- Structural well-formedness of the two maps: cache keys are unique, index
keys are unique, and every index entry is a duplicate-free set. This holds
for the real JavaScript Map and Set values and is preserved by update. -/
def FileSystemStateManager.wellFormed (s : FileSystemStateManager) : Prop :=
  (s.stats.map Prod.fst).Nodup ∧ (s.paths.map Prod.fst).Nodup ∧
    ∀ kv ∈ s.paths, (kv.2 : List Path).Nodup

theorem updateStats_wellFormed (s : FileSystemStateManager)
    (targetPath : Path) (n : Option WatchrStats) (hwf : s.wellFormed) :
    (s.updateStats targetPath n).wellFormed := by
  obtain ⟨hs, hp, hv⟩ := hwf
  rcases n with _ | st
  · refine ⟨keys_nodup_delete _ _ hs, ?_, ?_⟩
    · show (((s.paths.deleteValue
        ((jsGet s.stats targetPath).elim (-1) WatchrStats.inodeNumber)
        (some targetPath))).map Prod.fst).Nodup
      simp only [SetMultiMap.deleteValue]
      rcases hg : jsGet s.paths
          ((jsGet s.stats targetPath).elim (-1) WatchrStats.inodeNumber) with
        _ | values
      · exact hp
      · by_cases hrem : values.erase targetPath = []
        · simp only [hrem, if_true, eq_self_iff_true]
          exact keys_nodup_delete _ _ hp
        · simp only [if_neg hrem]
          exact keys_nodup_set _ _ _ hp
    · intro kv hkv
      show (kv.2 : List Path).Nodup
      revert hkv
      show kv ∈ s.paths.deleteValue
        ((jsGet s.stats targetPath).elim (-1) WatchrStats.inodeNumber)
        (some targetPath) → _
      simp only [SetMultiMap.deleteValue]
      rcases hg : jsGet s.paths
          ((jsGet s.stats targetPath).elim (-1) WatchrStats.inodeNumber) with
        _ | values
      · exact fun hkv => hv kv hkv
      · have hvalues : values.Nodup :=
          hv _ (mem_of_jsGet_eq_some _ _ _ hg)
        by_cases hrem : values.erase targetPath = []
        · simp only [hrem, if_true, eq_self_iff_true]
          exact fun hkv => hv kv (mem_of_mem_delete _ _ _ hkv)
        · simp only [if_neg hrem]
          intro hkv
          rcases mem_of_mem_set _ _ _ _ hkv with hm | hm
          · exact hv kv hm
          · rw [hm]
            exact hvalues.erase _
  · refine ⟨keys_nodup_set _ _ _ hs, keys_nodup_set _ _ _ hp, ?_⟩
    intro kv hkv
    rcases mem_of_mem_set _ _ _ _ hkv with hm | hm
    · exact hv kv hm
    · rw [hm]
      refine nodup_setAdd _ _ ?_
      rcases hg : jsGet s.paths st.inodeNumber with _ | values
      · simp
      · simpa using hv _ (mem_of_jsGet_eq_some _ _ _ hg)
theorem deleteValue_get_none {K V : Type} [DecidableEq K] [DecidableEq V]
    (m : SetMultiMap K V) (k : K) (v : V) (h : jsGet m k = none) :
    m.deleteValue k (some v) = m := by
  show (match jsGet m k with
    | none => m
    | some values =>
      let remaining := values.erase v
      if remaining = [] then jsDelete m k else jsSet m k remaining) = m
  rw [h]

theorem deleteValue_get_some {K V : Type} [DecidableEq K] [DecidableEq V]
    (m : SetMultiMap K V) (k : K) (v : V) (values : List V)
    (h : jsGet m k = some values) :
    m.deleteValue k (some v) =
      if values.erase v = [] then jsDelete m k
      else jsSet m k (values.erase v) := by
  show (match jsGet m k with
    | none => m
    | some values =>
      let remaining := values.erase v
      if remaining = [] then jsDelete m k else jsSet m k remaining) = _
  rw [h]

theorem updateStats_inodeSync (s : FileSystemStateManager)
    (targetPath : Path) (n : Option WatchrStats) (hwf : s.wellFormed)
    (hsync : s.inodeSync)
    (hsame : ∀ m m', jsGet s.stats targetPath = some m → n = some m' →
      m'.inodeNumber = m.inodeNumber) :
    (s.updateStats targetPath n).inodeSync := by
  obtain ⟨hs, hp, hv⟩ := hwf
  rcases n with _ | st
  case none =>
    intro i p
    show p ∈ (jsGet (s.paths.deleteValue
        ((jsGet s.stats targetPath).elim (-1) WatchrStats.inodeNumber)
        (some targetPath)) i).getD [] ↔
      ∃ m, jsGet (jsDelete s.stats targetPath) p = some m ∧ m.inodeNumber = i
    have hrhs : (∃ m, jsGet (jsDelete s.stats targetPath) p = some m ∧
        m.inodeNumber = i) ↔
        (p ≠ targetPath ∧
          ∃ m, jsGet s.stats p = some m ∧ m.inodeNumber = i) := by
      by_cases hpt : p = targetPath
      · subst hpt
        rw [jsGet_delete_eq _ _ hs]
        simp
      · rw [jsGet_delete_ne _ _ _ hpt]
        simp [hpt]
    rw [hrhs]
    rcases hst : jsGet s.stats targetPath with _ | m0
    · simp only [hst, Option.elim]
      have hiff : ∀ j : InodeNumber,
          (∃ m, jsGet s.stats p = some m ∧ m.inodeNumber = j) ↔
            (p ≠ targetPath ∧
              ∃ m, jsGet s.stats p = some m ∧ m.inodeNumber = j) := by
        intro j
        constructor
        · intro hmem
          refine ⟨?_, hmem⟩
          rintro rfl
          rcases hmem with ⟨m, hm, _⟩
          rw [hst] at hm
          exact Option.noConfusion hm
        · exact fun h => h.2
      rcases hg : jsGet s.paths (-1 : Int) with _ | values
      · rw [deleteValue_get_none _ _ _ hg, hsync i p]
        exact hiff i
      · have hnt : targetPath ∉ values := by
          intro hmem
          have hx := (hsync (-1) targetPath).mp (by rw [hg]; exact hmem)
          rcases hx with ⟨m, hm, _⟩
          rw [hst] at hm
          exact Option.noConfusion hm
        rw [deleteValue_get_some _ _ _ _ hg, List.erase_of_not_mem hnt]
        by_cases hvnil : values = []
        · rw [if_pos hvnil]
          by_cases hi : i = (-1 : Int)
          · rw [hi, jsGet_delete_eq _ _ hp]
            simp only [Option.getD_none, List.not_mem_nil, false_iff,
              not_and]
            intro hpne hold
            have hmv := (hsync (-1) p).mpr hold
            rw [hg, hvnil] at hmv
            simp at hmv
          · rw [jsGet_delete_ne _ _ _ hi, hsync i p]
            exact hiff i
        · rw [if_neg hvnil, jsSet_of_get_eq _ _ _ hg, hsync i p]
          exact hiff i
    · simp only [hst, Option.elim]
      have hmem0 : targetPath ∈ (jsGet s.paths m0.inodeNumber).getD [] :=
        (hsync m0.inodeNumber targetPath).mpr ⟨m0, hst, rfl⟩
      have hneq : ∀ j : InodeNumber, ¬ j = m0.inodeNumber →
          ((∃ m, jsGet s.stats p = some m ∧ m.inodeNumber = j) ↔
            (p ≠ targetPath ∧
              ∃ m, jsGet s.stats p = some m ∧ m.inodeNumber = j)) := by
        intro j hj
        constructor
        · intro hmemp
          refine ⟨?_, hmemp⟩
          rintro rfl
          rcases hmemp with ⟨m, hm, hmi⟩
          rw [hst] at hm
          injection hm with hm
          subst hm
          exact hj hmi.symm
        · exact fun h => h.2
      rcases hg : jsGet s.paths m0.inodeNumber with _ | values
      · rw [hg] at hmem0
        simp at hmem0
      · rw [hg] at hmem0
        simp only [Option.getD_some] at hmem0
        have hvalues : values.Nodup := hv _ (mem_of_jsGet_eq_some _ _ _ hg)
        have hmemerase : ∀ q : Path,
            q ∈ values.erase targetPath ↔ q ≠ targetPath ∧ q ∈ values :=
          fun q => hvalues.mem_erase_iff
        rw [deleteValue_get_some _ _ _ _ hg]
        by_cases hrem : values.erase targetPath = []
        · rw [if_pos hrem]
          by_cases hi : i = m0.inodeNumber
          · rw [hi, jsGet_delete_eq _ _ hp]
            simp only [Option.getD_none, List.not_mem_nil, false_iff,
              not_and]
            intro hpt hold
            have hpv := (hsync m0.inodeNumber p).mpr hold
            rw [hg] at hpv
            simp only [Option.getD_some] at hpv
            have hx : p ∈ values.erase targetPath :=
              (hmemerase p).mpr ⟨hpt, hpv⟩
            rw [hrem] at hx
            simp at hx
          · rw [jsGet_delete_ne _ _ _ hi, hsync i p]
            exact hneq i hi
        · rw [if_neg hrem]
          by_cases hi : i = m0.inodeNumber
          · rw [hi, jsGet_set_eq]
            simp only [Option.getD_some]
            rw [hmemerase p]
            constructor
            · rintro ⟨hpt, hpv⟩
              refine ⟨hpt, (hsync m0.inodeNumber p).mp ?_⟩
              rw [hg]
              exact hpv
            · rintro ⟨hpt, hold⟩
              refine ⟨hpt, ?_⟩
              have hpv := (hsync m0.inodeNumber p).mpr hold
              rw [hg] at hpv
              simpa using hpv
          · rw [jsGet_set_ne _ _ _ _ hi, hsync i p]
            exact hneq i hi
  case some =>
    intro i p
    show p ∈ (jsGet (s.paths.setOne st.inodeNumber targetPath) i).getD [] ↔
      ∃ m, jsGet (jsSet s.stats targetPath st) p = some m ∧ m.inodeNumber = i
    have hrhs : (∃ m, jsGet (jsSet s.stats targetPath st) p = some m ∧
        m.inodeNumber = i) ↔
        (if p = targetPath then st.inodeNumber = i
          else ∃ m, jsGet s.stats p = some m ∧ m.inodeNumber = i) := by
      by_cases hpt : p = targetPath
      · subst hpt
        rw [jsGet_set_eq]
        simp
      · rw [jsGet_set_ne _ _ _ _ hpt]
        simp [hpt]
    rw [hrhs]
    show p ∈ (jsGet (jsSet s.paths st.inodeNumber
        (setAdd ((jsGet s.paths st.inodeNumber).getD []) targetPath))
        i).getD [] ↔ _
    by_cases hi : i = st.inodeNumber
    · rw [hi, jsGet_set_eq]
      simp only [Option.getD_some]
      rw [mem_setAdd]
      by_cases hpt : p = targetPath
      · simp [hpt]
      · simp only [hpt, if_false, false_or]
        rw [hsync st.inodeNumber p]
    · rw [jsGet_set_ne _ _ _ _ hi, hsync i p]
      by_cases hpt : p = targetPath
      · subst hpt
        rw [if_pos rfl]
        constructor
        · rintro ⟨m, hm, hmi⟩
          exact (hsame m st hm rfl).trans hmi
        · intro h
          exact absurd h.symm hi
      · rw [if_neg hpt]

/-- C5 (amended): provided the freshly observed metadata carries the same
inode number as the cached metadata whenever both are present, every update
preserves the exact synchronisation between the inode index and the
path-to-metadata cache (together with structural well-formedness of both
maps). Without that proviso the synchronisation breaks: see the
counterexample, where replacing a file under the same path leaves a stale
index membership under the old inode. -/
theorem update_preserves_inode_index_sync (s : FileSystemStateManager)
    (targetPath : Path) (n : Option WatchrStats) (hwf : s.wellFormed)
    (hsync : s.inodeSync)
    (hsame : ∀ m m', jsGet s.stats targetPath = some m → n = some m' →
      m'.inodeNumber = m.inodeNumber) :
    (s.update targetPath n).2.wellFormed ∧
      (s.update targetPath n).2.inodeSync := by
  have hstats : (s.update targetPath n).2.stats =
      (s.updateStats targetPath n).stats := updateInodes_stats _ _ _
  have hpaths : (s.update targetPath n).2.paths =
      (s.updateStats targetPath n).paths := updateInodes_paths _ _ _
  constructor
  · obtain ⟨h1, h2, h3⟩ := updateStats_wellFormed s targetPath n hwf
    refine ⟨?_, ?_, ?_⟩
    · rw [hstats]; exact h1
    · rw [hpaths]; exact h2
    · rw [hpaths]; exact h3
  · intro i p
    rw [hstats, hpaths]
    exact updateStats_inodeSync s targetPath n hwf hsync hsame i p

/-- File metadata with inode 1 for the C5 scenario. -/
def c5StatsA : WatchrStats :=
  { inodeNumber := 1, size := 10, isFile := true, isDirectory := false,
    isSymbolicLink := false }

/-- File metadata with inode 2 for the C5 scenario. -/
def c5StatsB : WatchrStats :=
  { inodeNumber := 2, size := 20, isFile := true, isDirectory := false,
    isSymbolicLink := false }

/-- The state after "/a" is first observed with inode 1 and then re-observed
with inode 2 (the file was replaced by a new one under the same name). -/
def c5State : FileSystemStateManager :=
  (((FileSystemStateManager.empty.update "/a" (some c5StatsA)).2).update "/a"
    (some c5StatsB)).2

/-- C5 counterexample: after the two updates of c5State, "/a" is still a
member of the index set of inode 1 even though the cache maps "/a" to
metadata with inode 2, so the claimed exact synchronisation fails. -/
theorem inode_index_not_synced_cex :
    "/a" ∈ (jsGet c5State.paths 1).getD [] ∧
      jsGet c5State.stats "/a" = some c5StatsB ∧
      c5StatsB.inodeNumber = 2 ∧ ¬ c5State.inodeSync := by
  refine ⟨by decide, by decide, by decide, fun h => ?_⟩
  rcases (h 1 "/a").mp (by decide) with ⟨m, hm, hi⟩
  rw [show jsGet c5State.stats "/a" = some c5StatsB from by decide] at hm
  injection hm with hm
  subst hm
  exact absurd hi (by decide)

/-- Witness for update_preserves_inode_index_sync at a concrete input. -/
theorem update_preserves_inode_index_sync_witness :
    (FileSystemStateManager.empty.update "/a" (some c5StatsA)).2.wellFormed ∧
    (FileSystemStateManager.empty.update "/a" (some c5StatsA)).2.inodeSync :=
  update_preserves_inode_index_sync FileSystemStateManager.empty "/a"
    (some c5StatsA)
    ⟨List.nodup_nil, List.nodup_nil,
      fun kv hkv => absurd hkv (List.not_mem_nil kv)⟩
    (by
      intro i p
      constructor
      · intro h
        exact absurd h (List.not_mem_nil p)
      · rintro ⟨m, hm, hmi⟩
        exact Option.noConfusion hm)
    (by
      intro m m2 hm
      exact fun _ => Option.noConfusion hm)

/-! Claim C6: the RetryQueue concurrency throttle. -/

/-- fileDescriptorLimit (src/src/constants.ts): the hard limit, 2048. -/
def fileDescriptorLimit : Nat := 2048

/-- A resolver closure, identified by a token: every schedule call creates a
fresh closure. -/
abbrev ResolverId := Nat

/-- The two queues of a RetryQueue. Both JavaScript Sets are modelled as
insertion-ordered duplicate-free lists; the pending queue order is the FIFO
iteration order of processQueue. -/
structure RetryQueue where
  activeQueue : List ResolverId
  pendingQueue : List ResolverId
  deriving DecidableEq, Repr

/-- A freshly constructed RetryQueue. -/
def RetryQueue.empty : RetryQueue := ⟨[], []⟩

theorem setAdd_of_mem {V : Type} [DecidableEq V] {s : List V} {v : V}
    (h : v ∈ s) : setAdd s v = s := if_pos h

theorem setAdd_of_not_mem {V : Type} [DecidableEq V] {s : List V} {v : V}
    (h : v ∉ s) : setAdd s v = s ++ [v] := if_neg h

/-- The loop of RetryQueue.processQueue: iterates the pending queue in
insertion order, moving each resolver into the active queue and invoking it,
stopping as soon as the active queue has reached the hard limit (the
resolver only resolves a promise, whose continuation runs after the loop, so
the loop itself mutates nothing else). -/
def drainQueue : List ResolverId → List ResolverId → RetryQueue
  | [], active => ⟨active, []⟩
  | f :: fs, active =>
    if fileDescriptorLimit ≤ active.length then ⟨active, f :: fs⟩
    else drainQueue fs (setAdd active f)

/-- RetryQueue.processQueue: returns unchanged when the active queue is at
the limit or the pending queue is empty (reset only clears the polling
interval), otherwise drains the pending queue. -/
def RetryQueue.processQueue (q : RetryQueue) : RetryQueue :=
  if fileDescriptorLimit ≤ q.activeQueue.length then q
  else if q.pendingQueue = [] then q
  else drainQueue q.pendingQueue q.activeQueue

/-- RetryQueue.add: the resolver joins the pending queue; when the active
queue is under half the hard limit the queue is processed immediately,
otherwise processing is left to the polling interval (which has no further
state effect here). -/
def RetryQueue.add (q : RetryQueue) (fn : ResolverId) : RetryQueue :=
  if q.activeQueue.length < fileDescriptorLimit / 2 then
    RetryQueue.processQueue ⟨q.activeQueue, setAdd q.pendingQueue fn⟩
  else ⟨q.activeQueue, setAdd q.pendingQueue fn⟩

/-- The release function handed out by schedule: activeQueue.delete. -/
def RetryQueue.release (q : RetryQueue) (fn : ResolverId) : RetryQueue :=
  { q with activeQueue := q.activeQueue.erase fn }

/-- One tick of the polling interval: processQueue. -/
def RetryQueue.tick (q : RetryQueue) : RetryQueue := q.processQueue

/-- The externally triggerable operations on a RetryQueue: a schedule call
(which invokes add with a fresh resolver), a release call, and a polling
tick. -/
inductive RQOp where
  | schedule (id : ResolverId)
  | release (id : ResolverId)
  | tick
  deriving DecidableEq, Repr

/-- Applies one RetryQueue operation. -/
def RQOp.apply (q : RetryQueue) : RQOp → RetryQueue
  | .schedule id => q.add id
  | .release id => q.release id
  | .tick => q.tick

/-- Runs a sequence of RetryQueue operations in order. -/
def runRQOps (q : RetryQueue) (ops : List RQOp) : RetryQueue :=
  ops.foldl RQOp.apply q

theorem runRQOps_append (q : RetryQueue) (xs ys : List RQOp) :
    runRQOps q (xs ++ ys) = runRQOps (runRQOps q xs) ys :=
  List.foldl_append _ _ _ _

theorem drainQueue_le (fs : List ResolverId) :
    ∀ active : List ResolverId, active.length ≤ fileDescriptorLimit →
      (drainQueue fs active).activeQueue.length ≤ fileDescriptorLimit := by
  induction fs with
  | nil => exact fun active h => h
  | cons f fs ih =>
    intro active h
    simp only [drainQueue]
    by_cases hle : fileDescriptorLimit ≤ active.length
    · rw [if_pos hle]
      exact h
    · rw [if_neg hle]
      apply ih
      by_cases hf : f ∈ active
      · rw [setAdd_of_mem hf]
        exact h
      · rw [setAdd_of_not_mem hf]
        simp only [List.length_append, List.length_singleton]
        exact Nat.lt_of_not_le hle

theorem processQueue_le (q : RetryQueue)
    (h : q.activeQueue.length ≤ fileDescriptorLimit) :
    q.processQueue.activeQueue.length ≤ fileDescriptorLimit := by
  unfold RetryQueue.processQueue
  by_cases h1 : fileDescriptorLimit ≤ q.activeQueue.length
  · rw [if_pos h1]
    exact h
  · rw [if_neg h1]
    by_cases h2 : q.pendingQueue = []
    · rw [if_pos h2]
      exact h
    · rw [if_neg h2]
      exact drainQueue_le _ _ h

theorem add_le (q : RetryQueue) (fn : ResolverId)
    (h : q.activeQueue.length ≤ fileDescriptorLimit) :
    (q.add fn).activeQueue.length ≤ fileDescriptorLimit := by
  unfold RetryQueue.add
  by_cases h1 : q.activeQueue.length < fileDescriptorLimit / 2
  · rw [if_pos h1]
    exact processQueue_le _ h
  · rw [if_neg h1]
    exact h

theorem release_le (q : RetryQueue) (fn : ResolverId)
    (h : q.activeQueue.length ≤ fileDescriptorLimit) :
    (q.release fn).activeQueue.length ≤ fileDescriptorLimit :=
  le_trans (List.Sublist.length_le (List.erase_sublist _ _)) h

theorem runRQOps_le (ops : List RQOp) :
    ∀ q : RetryQueue, q.activeQueue.length ≤ fileDescriptorLimit →
      (runRQOps q ops).activeQueue.length ≤ fileDescriptorLimit := by
  induction ops with
  | nil => exact fun q h => h
  | cons op tl ih =>
    intro q h
    show (runRQOps (RQOp.apply q op) tl).activeQueue.length ≤ _
    apply ih
    rcases op with id | id | _
    · exact add_le q id h
    · exact release_le q id h
    · exact processQueue_le q h

theorem drainQueue_mem_active (fs : List ResolverId) :
    ∀ (active : List ResolverId) (a : ResolverId), a ∈ active →
      a ∈ (drainQueue fs active).activeQueue := by
  induction fs with
  | nil => exact fun active a ha => ha
  | cons f fs ih =>
    intro active a ha
    simp only [drainQueue]
    by_cases hle : fileDescriptorLimit ≤ active.length
    · rw [if_pos hle]
      exact ha
    · rw [if_neg hle]
      exact ih _ _ ((mem_setAdd _ _ _).mpr (Or.inr ha))

theorem drainQueue_admits (fs : List ResolverId) :
    ∀ active : List ResolverId,
      active.length + fs.length ≤ fileDescriptorLimit →
      ∀ f ∈ fs, f ∈ (drainQueue fs active).activeQueue := by
  induction fs with
  | nil =>
    intro active h f hf
    simp at hf
  | cons g fs ih =>
    intro active h f hf
    simp only [List.length_cons] at h
    simp only [drainQueue]
    have hlt : active.length < fileDescriptorLimit := by omega
    rw [if_neg (Nat.not_le_of_lt hlt)]
    rcases List.mem_cons.mp hf with rfl | hf2
    · exact drainQueue_mem_active _ _ _ ((mem_setAdd _ _ _).mpr (Or.inl rfl))
    · apply ih
      · by_cases hg : g ∈ active
        · rw [setAdd_of_mem hg]
          omega
        · rw [setAdd_of_not_mem hg]
          simp only [List.length_append, List.length_singleton]
          omega
      · exact hf2

theorem processQueue_admits (q : RetryQueue)
    (hcap : q.activeQueue.length + q.pendingQueue.length ≤
      fileDescriptorLimit)
    (f : ResolverId) (hf : f ∈ q.pendingQueue) :
    f ∈ q.processQueue.activeQueue := by
  unfold RetryQueue.processQueue
  have hne : q.pendingQueue ≠ [] := by
    intro hc
    rw [hc] at hf
    simp at hf
  by_cases h1 : fileDescriptorLimit ≤ q.activeQueue.length
  · exfalso
    have hz : q.pendingQueue.length = 0 := by omega
    exact hne (List.length_eq_zero.mp hz)
  · rw [if_neg h1, if_neg hne]
    exact drainQueue_admits _ _ hcap f hf

/-- C6 (amended): the active queue never exceeds the hard limit over any
sequence of schedule, release and tick operations; and a schedule call made
while the active queue is below half the hard limit is admitted immediately
provided the pending callers queued ahead of it fit into the remaining
capacity. The unconditional immediate-admission half of the original claim
fails when more than fileDescriptorLimit minus the active size callers are
already pending: see the counterexample. -/
theorem retry_queue_limits :
    (∀ ops : List RQOp,
      (runRQOps RetryQueue.empty ops).activeQueue.length ≤
        fileDescriptorLimit) ∧
    (∀ (q : RetryQueue) (fn : ResolverId),
      q.activeQueue.length < fileDescriptorLimit / 2 →
      q.activeQueue.length + q.pendingQueue.length + 1 ≤
        fileDescriptorLimit →
      fn ∈ (q.add fn).activeQueue) := by
  constructor
  · intro ops
    exact runRQOps_le ops RetryQueue.empty (Nat.zero_le _)
  · intro q fn hhalf hcap
    unfold RetryQueue.add
    rw [if_pos hhalf]
    apply processQueue_admits
    · show q.activeQueue.length + (setAdd q.pendingQueue fn).length ≤ _
      by_cases hp : fn ∈ q.pendingQueue
      · rw [setAdd_of_mem hp]
        omega
      · rw [setAdd_of_not_mem hp]
        simp only [List.length_append, List.length_singleton]
        omega
    · exact (mem_setAdd _ _ _).mpr (Or.inl rfl)

/-- Witness for retry_queue_limits at concrete inputs. -/
theorem retry_queue_limits_witness :
    (runRQOps RetryQueue.empty []).activeQueue.length ≤
      fileDescriptorLimit ∧
    7 ∈ ((RetryQueue.mk [] []).add 7).activeQueue :=
  ⟨retry_queue_limits.1 [],
    retry_queue_limits.2 ⟨[], []⟩ 7 (by decide) (by decide)⟩

theorem runRQOps_initial_schedules (k : Nat)
    (hk : k ≤ fileDescriptorLimit / 2) :
    runRQOps RetryQueue.empty ((List.range k).map RQOp.schedule) =
      ⟨List.range k, []⟩ := by
  induction k with
  | zero => rfl
  | succ k ih =>
    rw [List.range_succ, List.map_append, runRQOps_append,
      ih (Nat.le_of_succ_le hk)]
    show RetryQueue.add ⟨List.range k, []⟩ k = _
    have hklt : k < fileDescriptorLimit / 2 := Nat.lt_of_succ_le hk
    have hk2048 : ¬ fileDescriptorLimit ≤ k := by
      have h1 : fileDescriptorLimit = 2048 := rfl
      have h2 : fileDescriptorLimit / 2 = 1024 := rfl
      omega
    have hself : k ∉ List.range k := by simp [List.mem_range]
    unfold RetryQueue.add
    rw [if_pos (by simpa using hklt)]
    show RetryQueue.processQueue ⟨List.range k, setAdd [] k⟩ = _
    rw [show setAdd ([] : List ResolverId) k = [k] from rfl]
    unfold RetryQueue.processQueue
    rw [if_neg (by simpa using hk2048)]
    rw [if_neg (by simp)]
    show drainQueue [k] (List.range k) = _
    unfold drainQueue
    rw [if_neg (by simpa using hk2048)]
    rw [setAdd_of_not_mem hself]
    show (⟨List.range k ++ [k], []⟩ : RetryQueue) = _
    rw [← List.range_succ]

theorem runRQOps_pressured_schedules (ids : List ResolverId) :
    ∀ act pend : List ResolverId, act.length = fileDescriptorLimit / 2 →
      (pend ++ ids).Nodup →
      runRQOps ⟨act, pend⟩ (ids.map RQOp.schedule) = ⟨act, pend ++ ids⟩ := by
  induction ids with
  | nil =>
    intro act pend hlen hnd
    simp [runRQOps]
  | cons id ids ih =>
    intro act pend hlen hnd
    have hid : id ∉ pend := by
      intro hc
      exact List.disjoint_of_nodup_append hnd hc (List.mem_cons_self _ _)
    show runRQOps (RetryQueue.add ⟨act, pend⟩ id) (ids.map RQOp.schedule) = _
    have hadd : RetryQueue.add ⟨act, pend⟩ id = ⟨act, pend ++ [id]⟩ := by
      unfold RetryQueue.add
      rw [if_neg (by simp [hlen])]
      rw [show setAdd pend id = pend ++ [id] from setAdd_of_not_mem hid]
    rw [hadd, ih act (pend ++ [id]) hlen
      (by rwa [List.append_assoc, List.singleton_append]),
      List.append_assoc, List.singleton_append]

/-- The schedule and release operations that fill the queue: 1024 schedules
(admitted immediately, filling the active queue to half the limit), 1026
further schedules (parked in the pending queue), and one release. -/
def c6Ops : List RQOp :=
  ((List.range 1024).map RQOp.schedule ++
    (List.range' 1024 1026).map RQOp.schedule) ++ [RQOp.release 1023]

theorem c6Ops_state :
    runRQOps RetryQueue.empty c6Ops =
      ⟨List.range 1023, List.range' 1024 1026⟩ := by
  unfold c6Ops
  rw [runRQOps_append, runRQOps_append,
    runRQOps_initial_schedules 1024 (by decide)]
  rw [runRQOps_pressured_schedules (List.range' 1024 1026) (List.range 1024)
    [] (by simp [fileDescriptorLimit]) (by
      simpa using List.nodup_range' 1024 1026)]
  show RetryQueue.release ⟨List.range 1024, [] ++ List.range' 1024 1026⟩
      1023 = _
  unfold RetryQueue.release
  simp only [List.nil_append]
  have : (List.range 1024).erase 1023 = List.range 1023 := by
    rw [List.range_succ, List.erase_append_right _ (by simp [List.mem_range]),
      List.erase_cons_head, List.append_nil]
  rw [this]

theorem drainQueue_not_admitted (fs : List ResolverId) (x : ResolverId) :
    ∀ active : List ResolverId,
      fileDescriptorLimit ≤ active.length + fs.length →
      (∀ f ∈ fs, f ∉ active) → (fs ++ [x]).Nodup → x ∉ active →
      x ∉ (drainQueue (fs ++ [x]) active).activeQueue := by
  induction fs with
  | nil =>
    intro active h hdisj hnd hx
    show x ∉ (drainQueue [x] active).activeQueue
    unfold drainQueue
    rw [if_pos (by simpa using h)]
    exact hx
  | cons f fs ih =>
    intro active h hdisj hnd hx
    show x ∉ (drainQueue (f :: (fs ++ [x])) active).activeQueue
    unfold drainQueue
    by_cases hle : fileDescriptorLimit ≤ active.length
    · rw [if_pos hle]
      exact hx
    · rw [if_neg hle]
      have hf : f ∉ active := hdisj f (List.mem_cons_self _ _)
      have hfx : f ∉ fs ++ [x] := (List.nodup_cons.mp (by simpa using hnd)).1
      rw [setAdd_of_not_mem hf]
      apply ih
      · simp only [List.length_append, List.length_singleton,
          List.length_cons] at h ⊢
        omega
      · intro g hg
        simp only [List.mem_append, List.mem_singleton, not_or]
        constructor
        · intro hga
          exact hdisj g (List.mem_cons_of_mem _ hg) hga
        · intro hgx
          subst hgx
          exact hfx (List.mem_append.mpr (Or.inl hg))
      · exact (List.nodup_cons.mp (by simpa using hnd)).2
      · simp only [List.mem_append, List.mem_singleton, not_or]
        refine ⟨hx, ?_⟩
        intro hxf
        subst hxf
        exact hfx (List.mem_append.mpr (Or.inr (List.mem_singleton.mpr rfl)))

set_option maxRecDepth 8000 in
/-- C6 counterexample: a reachable queue state in which the active queue is
below half the hard limit, yet a fresh schedule call is not admitted
immediately because 1026 earlier callers are parked ahead of it and only
1025 slots remain. -/
theorem retry_queue_not_immediate_cex :
    (runRQOps RetryQueue.empty c6Ops).activeQueue.length <
        fileDescriptorLimit / 2 ∧
      5000 ∉
        ((runRQOps RetryQueue.empty c6Ops).add 5000).activeQueue := by
  rw [c6Ops_state]
  constructor
  · show (List.range 1023).length < fileDescriptorLimit / 2
    rw [List.length_range]
    decide
  · show 5000 ∉ (RetryQueue.add ⟨List.range 1023, List.range' 1024 1026⟩
      5000).activeQueue
    have hmem : (5000 : ResolverId) ∉ List.range' 1024 1026 := by
      intro hc
      have hb := List.mem_range'_1.mp hc
      omega
    unfold RetryQueue.add
    rw [if_pos (show (List.range 1023).length < fileDescriptorLimit / 2 by
      rw [List.length_range]; decide)]
    rw [show setAdd (List.range' 1024 1026) 5000 =
      List.range' 1024 1026 ++ [5000] from setAdd_of_not_mem hmem]
    unfold RetryQueue.processQueue
    rw [if_neg (show ¬ fileDescriptorLimit ≤ (List.range 1023).length by
      rw [List.length_range]; decide)]
    rw [if_neg (show (List.range' 1024 1026 ++ [5000] : List ResolverId) ≠
        [] by
      intro hc
      have hlen := congrArg List.length hc
      rw [List.length_append, List.length_range'] at hlen
      simp at hlen)]
    apply drainQueue_not_admitted
    · rw [List.length_range, List.length_range']
      decide
    · intro f hf hfa
      have h1 := List.mem_range'_1.mp hf
      have h2 := List.mem_range.mp hfa
      omega
    · rw [List.nodup_append]
      refine ⟨List.nodup_range' 1024 1026, List.nodup_singleton _, ?_⟩
      intro a ha hb
      have h1 := List.mem_range'_1.mp ha
      rw [List.mem_singleton] at hb
      subst hb
      omega
    · intro hc
      have h2 := List.mem_range.mp hc
      omega

/-! Claim C8: the FileSystem.getStats error handling. -/

/-- Node error codes, as strings. -/
abbrev NodeErrorCode := String

/-- A thrown JavaScript value: a Node error (an Error instance carrying an
optional errno code) or any other thrown value (isNodeError is false). -/
inductive Thrown where
  | nodeError (code : Option NodeErrorCode)
  | other
  deriving DecidableEq, Repr

/-- retryErrorCodes (src/src/file-system.ts): not-found (ENOENT),
too-many-open-files (EMFILE, ENFILE), would-block (EAGAIN), resource-busy
(EBUSY), transient permission denial (EACCESS, EACCES, EACCS, EPERM). -/
def retryErrorCodes : List NodeErrorCode :=
  ["ENOENT", "EMFILE", "ENFILE", "EAGAIN", "EBUSY", "EACCESS", "EACCES",
    "EACCS", "EPERM"]

/-- isNodeError: error instanceof Error. -/
def isNodeError : Thrown → Bool
  | .nodeError _ => true
  | .other => false

/-- retryErrorCodes.has(error.code); false when the code is undefined. -/
def hasRetryCode : Thrown → Bool
  | .nodeError (some c) => retryErrorCodes.contains c
  | .nodeError none => false
  | .other => false

/-- The jitter waited before a retry: the double tilde truncation of
Math.random() * 100 for a random draw r in [0, 1). -/
def retryJitter (r : ℚ) : ℤ := ⌊r * 100⌋

/-- FileSystem.getStats over an oracle giving the outcome of the stat
syscall at each attempt, with fuel bounding the number of attempts the
enclosing 250ms timeout decorator admits (exhausted fuel is the decorator
resolving undefined: giving up). The try/catch of getStatsWithTimeout is
the match on the syscall outcome; the error arm is handleRejection, which
returns undefined unless the error is a Node error with a retryable code,
in which case it waits the jitter and recurses. A .error result would be an
exception escaping to the caller. -/
def getStatsRun (oracle : Nat → Except Thrown WatchrStats) :
    Nat → Nat → Except Thrown (Option WatchrStats)
  | _, 0 => Except.ok none
  | attempt, fuel + 1 =>
    match oracle attempt with
    | .ok stats => .ok (some stats)
    | .error error =>
      if isNodeError error && hasRetryCode error then
        getStatsRun oracle (attempt + 1) fuel
      else .ok none

/-- C8: getStats never throws to its caller: every run settles with .ok;
a syscall error with a retryable Node code makes it retry at the next
attempt, any other error makes it return undefined, exhausted fuel (the
timeout giving up) returns undefined, and the retry jitter always lies in
[0, 100). -/
theorem getStats_never_throws :
    (∀ (oracle : Nat → Except Thrown WatchrStats) (attempt fuel : Nat),
      ∃ v, getStatsRun oracle attempt fuel = Except.ok v) ∧
    (∀ (oracle : Nat → Except Thrown WatchrStats) (attempt fuel : Nat)
      (error : Thrown), oracle attempt = Except.error error →
      (isNodeError error && hasRetryCode error) = true →
      getStatsRun oracle attempt (fuel + 1) =
        getStatsRun oracle (attempt + 1) fuel) ∧
    (∀ (oracle : Nat → Except Thrown WatchrStats) (attempt fuel : Nat)
      (error : Thrown), oracle attempt = Except.error error →
      (isNodeError error && hasRetryCode error) = false →
      getStatsRun oracle attempt (fuel + 1) = Except.ok none) ∧
    (∀ (oracle : Nat → Except Thrown WatchrStats) (attempt : Nat),
      getStatsRun oracle attempt 0 = Except.ok none) ∧
    (∀ r : ℚ, 0 ≤ r → r < 1 → 0 ≤ retryJitter r ∧ retryJitter r < 100) := by
  refine ⟨?_, ?_, ?_, ?_, ?_⟩
  · intro oracle attempt fuel
    induction fuel generalizing attempt with
    | zero => exact ⟨none, rfl⟩
    | succ fuel ih =>
      rcases h : oracle attempt with error | stats
      · by_cases hr : (isNodeError error && hasRetryCode error) = true
        · rcases ih (attempt + 1) with ⟨v, hv⟩
          exact ⟨v, by simp only [getStatsRun, h, hr, if_true, hv]⟩
        · exact ⟨none, by simp only [getStatsRun, h, if_neg hr]⟩
      · exact ⟨some stats, by simp only [getStatsRun, h]⟩
  · intro oracle attempt fuel error herr hretry
    simp only [getStatsRun, herr, hretry, if_true]
  · intro oracle attempt fuel error herr hretry
    simp only [getStatsRun, herr, hretry, Bool.false_eq_true, if_false]
  · intro oracle attempt
    rfl
  · intro r h0 h1
    constructor
    · rw [retryJitter, Int.le_floor]
      push_cast
      nlinarith
    · rw [retryJitter, Int.floor_lt]
      push_cast
      nlinarith

/-- Witness for getStats_never_throws at concrete inputs. -/
theorem getStats_never_throws_witness :
    (∃ v, getStatsRun
      (fun _ => Except.error (Thrown.nodeError (some "ENOENT"))) 0 3 =
        Except.ok v) ∧
    (0 ≤ retryJitter (1 / 2) ∧ retryJitter (1 / 2) < 100) :=
  ⟨getStats_never_throws.1 _ 0 3,
    getStats_never_throws.2.2.2.2 (1 / 2) (by norm_num) (by norm_num)⟩

/-! Claims C2, C3, C7, C10: the FileRenameHandler rename correlator and the
LockResolver timer multiplexer. The callback closures of the source are
defunctionalised: each closure is represented by the data it captures, and
closure identity (used by LockResolver.remove and Map keys) by a freshness
counter. -/

/-- renameTimeout (src/src/constants.ts): 250ms. -/
def renameTimeout : Nat := 250

/-- LockResolver.interval: the shared 50ms multiplexer tick. -/
def lockResolverInterval : Nat := 50

/-- The two lock namespaces: the fileLocks and directoryLocks
FileSystemLocker instances of FileRenameHandler. -/
inductive LockNamespace where
  | file | dir
  deriving DecidableEq, Repr

/-- A lock event table (the LockEvent of processLock): FileEvent or
DirectoryEvent. The change entry is optional because DirectoryEvent defines
no change key. -/
structure LockEventTable where
  add : FileSystemEvent
  change : Option FileSystemEvent
  rename : FileSystemEvent
  unlink : FileSystemEvent
  deriving DecidableEq, Repr

/-- FileEvent (src/src/constants.ts). -/
def FileEvent : LockEventTable :=
  { add := .add, change := some .change, rename := .rename,
    unlink := .unlink }

/-- DirectoryEvent (src/src/constants.ts): add, rename and unlink only. -/
def DirectoryEvent : LockEventTable :=
  { add := .addDir, change := none, rename := .renameDir,
    unlink := .unlinkDir }

/-- The lock event table of a namespace. -/
def lockEventTable : LockNamespace → LockEventTable
  | .file => FileEvent
  | .dir => DirectoryEvent

/-- The add event fed to getLockTargetEvent for a namespace. -/
def nsAddEvent : LockNamespace → FileSystemEvent
  | .file => .add
  | .dir => .addDir

/-- The unlink event fed to getLockTargetEvent for a namespace. -/
def nsUnlinkEvent : LockNamespace → FileSystemEvent
  | .file => .unlink
  | .dir => .unlinkDir

/-- The inode type of a namespace. -/
def nsInodeType : LockNamespace → InodeType
  | .file => InodeType.file
  | .dir => InodeType.dir

/-- The namespace selected by processLock for an inode type. -/
def typeNamespace : InodeType → LockNamespace
  | .file => .file
  | .dir => .dir

/-- The data captured by a resolve closure stored by addLock in the add map
of its FileSystemLocker: the target path of the addLock call and the
identity of the free closure that call registered with the LockResolver. -/
structure AddLockEntry where
  targetPath : Path
  freeId : Nat
  deriving DecidableEq, Repr

/-- The data captured by an overridden closure stored by unlinkLock in the
unlink map of its FileSystemLocker. -/
structure UnlinkLockEntry where
  targetPath : Path
  freeId : Nat
  deriving DecidableEq, Repr

/-- A FileSystemLocker (src/src/file-system-locker.ts): the add and unlink
maps keyed by inode number. -/
structure FileSystemLocker where
  addLocks : List (InodeNumber × AddLockEntry)
  unlinkLocks : List (InodeNumber × UnlinkLockEntry)
  deriving DecidableEq, Repr

/-- What a free closure held by the LockResolver does when it fires: the
free of addLock cleans up its add lock and runs emit; the free of
unlinkLock cleans up its unlink lock and emits the unlink event. Each
carries the namespace, inode and path it captured. -/
inductive FreeAction where
  | addFree (ns : LockNamespace) (inodeNumber : InodeNumber)
      (targetPath : Path)
  | unlinkFree (ns : LockNamespace) (inodeNumber : InodeNumber)
      (targetPath : Path)
  deriving DecidableEq, Repr

/-- An event handed to emitEvent: the time of emission, the event, the
target path and the optional second path (targetPathNext). -/
structure Emitted where
  time : Nat
  event : FileSystemEvent
  path : Path
  pathNext : Option Path
  deriving DecidableEq, Repr

/-- The state of a FileRenameHandler together with the LockResolver
registrations it owns and the trace of emitted events. resolvers is the
LockResolver map of (closure, deadline) pairs in insertion order, keyed by
closure identity. -/
structure HandlerState where
  fsm : FileSystemStateManager
  fileLocks : FileSystemLocker
  directoryLocks : FileSystemLocker
  resolvers : List (Nat × FreeAction × Nat)
  emitted : List Emitted
  nextId : Nat
  deriving DecidableEq, Repr

/-- The FileSystemLocker of a namespace. -/
def HandlerState.locker (s : HandlerState) : LockNamespace → FileSystemLocker
  | .file => s.fileLocks
  | .dir => s.directoryLocks

/-- Replaces the FileSystemLocker of a namespace. -/
def HandlerState.setLocker (s : HandlerState) :
    LockNamespace → FileSystemLocker → HandlerState
  | .file, l => { s with fileLocks := l }
  | .dir, l => { s with directoryLocks := l }

/-- A fresh FileRenameHandler over a given state manager, with a given
closure-identity counter. -/
def initialHandler (fsm : FileSystemStateManager) (n : Nat) : HandlerState :=
  { fsm := fsm, fileLocks := ⟨[], []⟩, directoryLocks := ⟨[], []⟩,
    resolvers := [], emitted := [], nextId := n }

/-- this.emitEvent(event, targetPath, targetPathNext), recorded with the
current time. -/
def HandlerState.emitEvent (s : HandlerState) (now : Nat)
    (event : FileSystemEvent) (targetPath : Path) (pathNext : Option Path) :
    HandlerState :=
  { s with emitted := s.emitted ++ [⟨now, event, targetPath, pathNext⟩] }

/-- LockResolver.remove(fn), by closure identity. -/
def HandlerState.removeResolver (s : HandlerState) (id : Nat) :
    HandlerState :=
  { s with resolvers := jsDelete s.resolvers id }

/-- The emit closure of addLock: looks in the inode index for another path
with the same inode (this.fileSystemStateManager.paths.find with key
inodeNumber ?? -1, the case-insensitive-filesystem fallback) and emits
rename(otherPath, targetPath) when one exists, else the plain add event. -/
def HandlerState.emitAddOrRename (s : HandlerState) (ns : LockNamespace)
    (inodeNumber : Option InodeNumber) (targetPath : Path) (now : Nat) :
    HandlerState :=
  match s.fsm.paths.findVal (inodeNumber.getD (-1))
      (fun p => p != targetPath) with
  | some otherPath =>
    s.emitEvent now (lockEventTable ns).rename otherPath (some targetPath)
  | none => s.emitEvent now (lockEventTable ns).add targetPath none

/-- Invoking the resolve closure stored in the add map of the namespace for
an inode (run directly at the end of addLock, and through getLock at the
end of unlinkLock; absent closure means no invocation). When a matching
unlink lock exists: cleanup removes the add lock and its free from the
LockResolver; unlink() is the overridden closure, whose own cleanup removes
the unlink lock and its free and which returns its captured path; then with
identical paths, change is emitted only when the namespace has a change
event and the path is in the stats cache, and with different paths
rename(previous, target) is emitted. -/
def HandlerState.runAddResolve (s : HandlerState) (ns : LockNamespace)
    (inodeNumber : InodeNumber) (now : Nat) : HandlerState :=
  match jsGet (s.locker ns).addLocks inodeNumber with
  | none => s
  | some entry =>
    match jsGet (s.locker ns).unlinkLocks inodeNumber with
    | none => s
    | some uentry =>
      let s1 := (s.setLocker ns
        { s.locker ns with
          addLocks := jsDelete (s.locker ns).addLocks inodeNumber
        }).removeResolver entry.freeId
      let s2 := (s1.setLocker ns
        { s1.locker ns with
          unlinkLocks := jsDelete (s1.locker ns).unlinkLocks inodeNumber
        }).removeResolver uentry.freeId
      let previousTargetPath := uentry.targetPath
      if entry.targetPath = previousTargetPath then
        match (lockEventTable ns).change with
        | some changeEvent =>
          if (jsGet s2.fsm.stats entry.targetPath).isSome then
            s2.emitEvent now changeEvent entry.targetPath none
          else s2
        | none => s2
      else
        s2.emitEvent now (lockEventTable ns).rename previousTargetPath
          (some entry.targetPath)

/-- FileRenameHandler.addLock. A missing or zero inode number is falsy and
makes it emit immediately; otherwise it registers the free closure with the
LockResolver at deadline now + timeout, stores the resolve closure in the
add map, and invokes resolve. -/
def HandlerState.addLock (s : HandlerState) (ns : LockNamespace)
    (inodeNumber : Option InodeNumber) (targetPath : Path) (timeout : Nat)
    (now : Nat) : HandlerState :=
  match inodeNumber with
  | none => s.emitAddOrRename ns none targetPath now
  | some ino =>
    if ino = 0 then s.emitAddOrRename ns (some ino) targetPath now
    else
      let freeId := s.nextId
      let s1 : HandlerState :=
        { s with
          resolvers := jsSet s.resolvers freeId
            (FreeAction.addFree ns ino targetPath, now + timeout)
          nextId := s.nextId + 1 }
      let s2 := s1.setLocker ns
        { s1.locker ns with
          addLocks := jsSet (s1.locker ns).addLocks ino
            ⟨targetPath, freeId⟩ }
      s2.runAddResolve ns ino now

/-- FileRenameHandler.unlinkLock. A missing or zero inode number is falsy
and makes it emit the unlink event immediately; otherwise it registers the
free closure with the LockResolver at deadline now + timeout, stores the
overridden closure in the unlink map, and invokes the stored add-side
resolve closure when one exists. -/
def HandlerState.unlinkLock (s : HandlerState) (ns : LockNamespace)
    (inodeNumber : Option InodeNumber) (targetPath : Path) (timeout : Nat)
    (now : Nat) : HandlerState :=
  match inodeNumber with
  | none => s.emitEvent now (lockEventTable ns).unlink targetPath none
  | some ino =>
    if ino = 0 then
      s.emitEvent now (lockEventTable ns).unlink targetPath none
    else
      let freeId := s.nextId
      let s1 : HandlerState :=
        { s with
          resolvers := jsSet s.resolvers freeId
            (FreeAction.unlinkFree ns ino targetPath, now + timeout)
          nextId := s.nextId + 1 }
      let s2 := s1.setLocker ns
        { s1.locker ns with
          unlinkLocks := jsSet (s1.locker ns).unlinkLocks ino
            ⟨targetPath, freeId⟩ }
      s2.runAddResolve ns ino now

/-- The operation tag of processLock. -/
inductive LockOperation where
  | add | unlink
  deriving DecidableEq, Repr

/-- FileRenameHandler.processLock: looks up the recorded inode for the
(path, event) pair with the inode type, builds the lock configuration
(event table and locker chosen by the inode type) and dispatches to addLock
or unlinkLock. -/
def HandlerState.processLock (s : HandlerState) (targetPath : Path)
    (event : FileSystemEvent) (inodeType : InodeType) (op : LockOperation)
    (timeout : Nat) (now : Nat) : HandlerState :=
  let inodeNumber := s.fsm.getInodeNumber targetPath event (some inodeType)
  let ns := typeNamespace inodeType
  match op with
  | .add => s.addLock ns inodeNumber targetPath timeout now
  | .unlink => s.unlinkLock ns inodeNumber targetPath timeout now

/-- FileRenameHandler.getLockTargetEvent: dispatch by event kind; other
events are ignored. The timeout defaults to renameTimeout. -/
def HandlerState.getLockTargetEvent (s : HandlerState)
    (event : FileSystemEvent) (targetPath : Path) (timeout : Option Nat)
    (now : Nat) : HandlerState :=
  match event with
  | .add =>
    s.processLock targetPath .add InodeType.file .add
      (timeout.getD renameTimeout) now
  | .addDir =>
    s.processLock targetPath .addDir InodeType.dir .add
      (timeout.getD renameTimeout) now
  | .unlink =>
    s.processLock targetPath .unlink InodeType.file .unlink
      (timeout.getD renameTimeout) now
  | .unlinkDir =>
    s.processLock targetPath .unlinkDir InodeType.dir .unlink
      (timeout.getD renameTimeout) now
  | _ => s

/-- A free closure firing from the LockResolver: its cleanup removes its
lock map entry and its own LockResolver registration, then the add side
runs emit and the unlink side emits the unlink event. -/
def HandlerState.runFree (s : HandlerState) (id : Nat) (act : FreeAction)
    (now : Nat) : HandlerState :=
  match act with
  | .addFree ns ino targetPath =>
    let s1 := (s.setLocker ns
      { s.locker ns with
        addLocks := jsDelete (s.locker ns).addLocks ino }).removeResolver id
    s1.emitAddOrRename ns (some ino) targetPath now
  | .unlinkFree ns ino targetPath =>
    let s1 := (s.setLocker ns
      { s.locker ns with
        unlinkLocks := jsDelete (s.locker ns).unlinkLocks ino
      }).removeResolver id
    s1.emitEvent now (lockEventTable ns).unlink targetPath none

/-- The loop of LockResolver.resolve over a snapshot of the resolver map:
entries whose timestamp is still in the future are skipped; an expired
entry is removed and its closure runs (firing closures never add or remove
other registrations than their own, so iterating the snapshot is exact). -/
def tickGo (now : Nat) :
    List (Nat × FreeAction × Nat) → HandlerState → HandlerState
  | [], s => s
  | (id, act, ts) :: rest, s =>
    if now < ts then tickGo now rest s
    else tickGo now rest ((s.removeResolver id).runFree id act now)

/-- One LockResolver.resolve pass at the given time. -/
def HandlerState.tick (s : HandlerState) (now : Nat) : HandlerState :=
  tickGo now s.resolvers s

/-- A sequence of LockResolver.resolve passes at the given times. -/
def applyTicks (s : HandlerState) (ticks : List Nat) : HandlerState :=
  ticks.foldl HandlerState.tick s

/-- The tick times of the 50ms multiplexer interval started at t0, for a
given number of ticks. -/
def multiplexerTicks (t0 : Nat) (count : Nat) : List Nat :=
  (List.range count).map (fun k => t0 + lockResolverInterval * (k + 1))

theorem tickGo_no_fire (now : Nat) (entries : List (Nat × FreeAction × Nat))
    (s : HandlerState) (h : ∀ e ∈ entries, now < e.2.2) :
    tickGo now entries s = s := by
  induction entries with
  | nil => rfl
  | cons e rest ih =>
    obtain ⟨id, act, ts⟩ := e
    have hts : now < ts := h _ (List.mem_cons_self _ _)
    simp only [tickGo, if_pos hts]
    exact ih (fun e he => h e (List.mem_cons_of_mem _ he))

theorem tick_no_fire (s : HandlerState) (now : Nat)
    (h : ∀ e ∈ s.resolvers, now < e.2.2) : s.tick now = s :=
  tickGo_no_fire now s.resolvers s h

theorem applyTicks_no_fire (ticks : List Nat) (s : HandlerState)
    (h : ∀ t ∈ ticks, ∀ e ∈ s.resolvers, t < e.2.2) :
    applyTicks s ticks = s := by
  induction ticks with
  | nil => rfl
  | cons t rest ih =>
    show applyTicks (s.tick t) rest = s
    rw [tick_no_fire s t (h t (List.mem_cons_self _ _))]
    exact ih (fun t2 ht2 => h t2 (List.mem_cons_of_mem _ ht2))

theorem applyTicks_append (s : HandlerState) (xs ys : List Nat) :
    applyTicks s (xs ++ ys) = applyTicks (applyTicks s xs) ys :=
  List.foldl_append _ _ _ _

theorem applyTicks_resolvers_nil (ticks : List Nat) (s : HandlerState)
    (h : s.resolvers = []) : applyTicks s ticks = s :=
  applyTicks_no_fire ticks s (fun t _ e he => by
    rw [h] at he
    exact absurd he (List.not_mem_nil e))

/-- The handler state after a removal-class event for path a with recorded
inode i parked an unlink lock (no add lock present): the overridden closure
sits in the unlink map of the namespace and the free closure is registered
with deadline d. -/
def unlinkParkedState (fsm : FileSystemStateManager) (n : Nat)
    (ns : LockNamespace) (i : InodeNumber) (a : Path) (d : Nat) :
    HandlerState :=
  match ns with
  | .file =>
    ⟨fsm, ⟨[], [(i, ⟨a, n⟩)]⟩, ⟨[], []⟩,
      [(n, (FreeAction.unlinkFree .file i a, d))], [], n + 1⟩
  | .dir =>
    ⟨fsm, ⟨[], []⟩, ⟨[], [(i, ⟨a, n⟩)]⟩,
      [(n, (FreeAction.unlinkFree .dir i a, d))], [], n + 1⟩

/-- The handler state after a creation-class event for path b with recorded
inode i parked an add lock (no unlink lock present). -/
def addParkedState (fsm : FileSystemStateManager) (n : Nat)
    (ns : LockNamespace) (i : InodeNumber) (b : Path) (d : Nat) :
    HandlerState :=
  match ns with
  | .file =>
    ⟨fsm, ⟨[(i, ⟨b, n⟩)], []⟩, ⟨[], []⟩,
      [(n, (FreeAction.addFree .file i b, d))], [], n + 1⟩
  | .dir =>
    ⟨fsm, ⟨[], []⟩, ⟨[(i, ⟨b, n⟩)], []⟩,
      [(n, (FreeAction.addFree .dir i b, d))], [], n + 1⟩

theorem unlinkLock_parks (ns : LockNamespace) (fsm : FileSystemStateManager)
    (n : Nat) (i : InodeNumber) (a : Path) (t0 timeout : Nat)
    (hi : i ≠ 0)
    (hu : fsm.getInodeNumber a (nsUnlinkEvent ns) (some (nsInodeType ns)) =
      some i) :
    (initialHandler fsm n).getLockTargetEvent (nsUnlinkEvent ns) a
        (some timeout) t0 =
      unlinkParkedState fsm n ns i a (t0 + timeout) := by
  cases ns <;>
    simp only [nsUnlinkEvent, nsInodeType] at hu <;>
    simp [HandlerState.getLockTargetEvent, HandlerState.processLock,
      HandlerState.unlinkLock, HandlerState.runAddResolve,
      HandlerState.locker, HandlerState.setLocker, HandlerState.emitEvent,
      HandlerState.removeResolver, initialHandler, typeNamespace,
      nsUnlinkEvent, nsInodeType, unlinkParkedState, jsGet, jsSet, hu, hi]

theorem addLock_parks (ns : LockNamespace) (fsm : FileSystemStateManager)
    (n : Nat) (i : InodeNumber) (b : Path) (t0 timeout : Nat)
    (hi : i ≠ 0)
    (ha : fsm.getInodeNumber b (nsAddEvent ns) (some (nsInodeType ns)) =
      some i) :
    (initialHandler fsm n).getLockTargetEvent (nsAddEvent ns) b
        (some timeout) t0 =
      addParkedState fsm n ns i b (t0 + timeout) := by
  cases ns <;>
    simp only [nsAddEvent, nsInodeType] at ha <;>
    simp [HandlerState.getLockTargetEvent, HandlerState.processLock,
      HandlerState.addLock, HandlerState.runAddResolve,
      HandlerState.locker, HandlerState.setLocker, HandlerState.emitEvent,
      HandlerState.removeResolver, initialHandler, typeNamespace,
      nsAddEvent, nsInodeType, addParkedState, jsGet, jsSet, ha, hi]

theorem addLock_resolves_rename (ns : LockNamespace)
    (fsm : FileSystemStateManager) (n : Nat) (i : InodeNumber) (a b : Path)
    (d t1 timeout : Nat) (hi : i ≠ 0) (hab : a ≠ b)
    (ha : fsm.getInodeNumber b (nsAddEvent ns) (some (nsInodeType ns)) =
      some i) :
    (unlinkParkedState fsm n ns i a d).getLockTargetEvent (nsAddEvent ns) b
        (some timeout) t1 =
      ⟨fsm, ⟨[], []⟩, ⟨[], []⟩, [],
        [⟨t1, (lockEventTable ns).rename, a, some b⟩], n + 2⟩ := by
  have hn : n ≠ n + 1 := by omega
  have hba : b ≠ a := fun hc => hab hc.symm
  cases ns <;>
    simp only [nsAddEvent, nsInodeType] at ha <;>
    simp [HandlerState.getLockTargetEvent, HandlerState.processLock,
      HandlerState.addLock, HandlerState.runAddResolve,
      HandlerState.locker, HandlerState.setLocker, HandlerState.emitEvent,
      HandlerState.removeResolver, unlinkParkedState, typeNamespace,
      nsAddEvent, nsInodeType, lockEventTable, FileEvent, DirectoryEvent,
      jsGet, jsSet, jsDelete, ha, hi, hn, hba]

theorem unlinkLock_resolves_rename (ns : LockNamespace)
    (fsm : FileSystemStateManager) (n : Nat) (i : InodeNumber) (a b : Path)
    (d t1 timeout : Nat) (hi : i ≠ 0) (hab : a ≠ b)
    (hu : fsm.getInodeNumber a (nsUnlinkEvent ns) (some (nsInodeType ns)) =
      some i) :
    (addParkedState fsm n ns i b d).getLockTargetEvent (nsUnlinkEvent ns) a
        (some timeout) t1 =
      ⟨fsm, ⟨[], []⟩, ⟨[], []⟩, [],
        [⟨t1, (lockEventTable ns).rename, a, some b⟩], n + 2⟩ := by
  have hn : n ≠ n + 1 := by omega
  have hba : b ≠ a := fun hc => hab hc.symm
  cases ns <;>
    simp only [nsUnlinkEvent, nsInodeType] at hu <;>
    simp [HandlerState.getLockTargetEvent, HandlerState.processLock,
      HandlerState.unlinkLock, HandlerState.runAddResolve,
      HandlerState.locker, HandlerState.setLocker, HandlerState.emitEvent,
      HandlerState.removeResolver, addParkedState, typeNamespace,
      nsUnlinkEvent, nsInodeType, lockEventTable, FileEvent, DirectoryEvent,
      jsGet, jsSet, jsDelete, hu, hi, hn, hba]

theorem unlinkParked_resolvers (fsm : FileSystemStateManager) (n : Nat)
    (ns : LockNamespace) (i : InodeNumber) (a : Path) (d : Nat) :
    (unlinkParkedState fsm n ns i a d).resolvers =
      [(n, (FreeAction.unlinkFree ns i a, d))] := by
  cases ns <;> rfl

theorem addParked_resolvers (fsm : FileSystemStateManager) (n : Nat)
    (ns : LockNamespace) (i : InodeNumber) (b : Path) (d : Nat) :
    (addParkedState fsm n ns i b d).resolvers =
      [(n, (FreeAction.addFree ns i b, d))] := by
  cases ns <;> rfl

/-- C2: a removal-class event for path a and a creation-class event for a
different path b, both with the same nonzero recorded inode, each arriving
before the other side's lock timeout fires (every multiplexer tick between
the two arrivals lies before the first deadline), make the correlator emit
exactly one rename(a, b) and leave no pending resolver, whichever side
arrives first. -/
theorem rename_correlation (ns : LockNamespace)
    (fsm : FileSystemStateManager) (n : Nat) (i : InodeNumber) (a b : Path)
    (t0 t1 timeout : Nat) (ticks : List Nat)
    (hi : i ≠ 0) (hab : a ≠ b)
    (hu : fsm.getInodeNumber a (nsUnlinkEvent ns) (some (nsInodeType ns)) =
      some i)
    (ha : fsm.getInodeNumber b (nsAddEvent ns) (some (nsInodeType ns)) =
      some i)
    (hticks : ∀ t ∈ ticks, t < t0 + timeout) :
    (((applyTicks ((initialHandler fsm n).getLockTargetEvent
          (nsUnlinkEvent ns) a (some timeout) t0) ticks).getLockTargetEvent
          (nsAddEvent ns) b (some timeout) t1).emitted =
        [⟨t1, (lockEventTable ns).rename, a, some b⟩] ∧
      ((applyTicks ((initialHandler fsm n).getLockTargetEvent
          (nsUnlinkEvent ns) a (some timeout) t0) ticks).getLockTargetEvent
          (nsAddEvent ns) b (some timeout) t1).resolvers = []) ∧
    (((applyTicks ((initialHandler fsm n).getLockTargetEvent
          (nsAddEvent ns) b (some timeout) t0) ticks).getLockTargetEvent
          (nsUnlinkEvent ns) a (some timeout) t1).emitted =
        [⟨t1, (lockEventTable ns).rename, a, some b⟩] ∧
      ((applyTicks ((initialHandler fsm n).getLockTargetEvent
          (nsAddEvent ns) b (some timeout) t0) ticks).getLockTargetEvent
          (nsUnlinkEvent ns) a (some timeout) t1).resolvers = []) := by
  have hno1 : applyTicks (unlinkParkedState fsm n ns i a (t0 + timeout))
      ticks = unlinkParkedState fsm n ns i a (t0 + timeout) := by
    apply applyTicks_no_fire
    intro t ht e he
    rw [unlinkParked_resolvers] at he
    simp only [List.mem_singleton] at he
    subst he
    exact hticks t ht
  have hno2 : applyTicks (addParkedState fsm n ns i b (t0 + timeout))
      ticks = addParkedState fsm n ns i b (t0 + timeout) := by
    apply applyTicks_no_fire
    intro t ht e he
    rw [addParked_resolvers] at he
    simp only [List.mem_singleton] at he
    subst he
    exact hticks t ht
  rw [unlinkLock_parks ns fsm n i a t0 timeout hi hu,
    addLock_parks ns fsm n i b t0 timeout hi ha, hno1, hno2,
    addLock_resolves_rename ns fsm n i a b (t0 + timeout) t1 timeout hi hab
      ha,
    unlinkLock_resolves_rename ns fsm n i a b (t0 + timeout) t1 timeout hi
      hab hu]
  exact ⟨⟨rfl, rfl⟩, rfl, rfl⟩

/-- The state manager contents of the C2 witness scenario: the unlink event
for /a and the add event for /b both recorded with inode 7. -/
def c2Fsm : FileSystemStateManager :=
  { targetInodes := [(.unlink, [("/a", (7, InodeType.file))]),
      (.add, [("/b", (7, InodeType.file))])],
    paths := [], stats := [] }

/-- Witness for rename_correlation at a concrete input. -/
theorem rename_correlation_witness :
    (let s1 := applyTicks ((initialHandler c2Fsm 0).getLockTargetEvent
      (nsUnlinkEvent .file) "/a" (some 250) 0) [50, 100]
     let f1 := s1.getLockTargetEvent (nsAddEvent .file) "/b" (some 250) 100
     f1.emitted = [⟨100, (lockEventTable .file).rename, "/a", some "/b"⟩] ∧
       f1.resolvers = []) ∧
    (let s2 := applyTicks ((initialHandler c2Fsm 0).getLockTargetEvent
      (nsAddEvent .file) "/b" (some 250) 0) [50, 100]
     let f2 := s2.getLockTargetEvent (nsUnlinkEvent .file) "/a" (some 250)
       100
     f2.emitted = [⟨100, (lockEventTable .file).rename, "/a", some "/b"⟩] ∧
       f2.resolvers = []) :=
  rename_correlation .file c2Fsm 0 7 "/a" "/b" 0 100 250 [50, 100]
    (by decide) (by decide) (by decide) (by decide) (by decide)

/-- C3 (amended): when a creation-class event resolves against a parked
removal lock for the same inode and the identical path, no removed and no
created event is emitted and both resolvers are cancelled; in the file
namespace, modified (change) is emitted exactly when the path is currently
present in the state cache, while in the directory namespace nothing is
emitted in either case, because DirectoryEvent defines no change event. -/
theorem same_path_republish (ns : LockNamespace)
    (fsm : FileSystemStateManager) (n : Nat) (i : InodeNumber) (a : Path)
    (t0 t1 timeout : Nat) (ticks : List Nat)
    (hi : i ≠ 0)
    (hu : fsm.getInodeNumber a (nsUnlinkEvent ns) (some (nsInodeType ns)) =
      some i)
    (ha : fsm.getInodeNumber a (nsAddEvent ns) (some (nsInodeType ns)) =
      some i)
    (hticks : ∀ t ∈ ticks, t < t0 + timeout) :
    (let final := (applyTicks ((initialHandler fsm n).getLockTargetEvent
        (nsUnlinkEvent ns) a (some timeout) t0) ticks).getLockTargetEvent
        (nsAddEvent ns) a (some timeout) t1
     final.resolvers = [] ∧
       final.emitted =
         if ns = LockNamespace.file ∧ (jsGet fsm.stats a).isSome = true
         then [⟨t1, FileSystemEvent.change, a, none⟩] else []) := by
  have hno1 : applyTicks (unlinkParkedState fsm n ns i a (t0 + timeout))
      ticks = unlinkParkedState fsm n ns i a (t0 + timeout) := by
    apply applyTicks_no_fire
    intro t ht e he
    rw [unlinkParked_resolvers] at he
    simp only [List.mem_singleton] at he
    subst he
    exact hticks t ht
  have hn : n ≠ n + 1 := by omega
  rw [unlinkLock_parks ns fsm n i a t0 timeout hi hu, hno1]
  cases ns
  case file =>
    simp only [nsAddEvent, nsInodeType] at ha
    by_cases hc : (jsGet fsm.stats a).isSome = true
    · rw [if_pos ⟨rfl, hc⟩]
      refine ⟨?_, ?_⟩ <;>
        simp [HandlerState.getLockTargetEvent, HandlerState.processLock,
          HandlerState.addLock, HandlerState.runAddResolve,
          HandlerState.locker, HandlerState.setLocker,
          HandlerState.emitEvent, HandlerState.removeResolver,
          unlinkParkedState, typeNamespace, nsAddEvent, nsUnlinkEvent,
          nsInodeType, lockEventTable, FileEvent, jsGet, jsSet, jsDelete,
          ha, hi, hn, hc]
    · rw [if_neg (fun hcon => hc hcon.2)]
      refine ⟨?_, ?_⟩ <;>
        simp [HandlerState.getLockTargetEvent, HandlerState.processLock,
          HandlerState.addLock, HandlerState.runAddResolve,
          HandlerState.locker, HandlerState.setLocker,
          HandlerState.emitEvent, HandlerState.removeResolver,
          unlinkParkedState, typeNamespace, nsAddEvent, nsUnlinkEvent,
          nsInodeType, lockEventTable, FileEvent, jsGet, jsSet, jsDelete,
          ha, hi, hn, hc]
  case dir =>
    simp only [nsAddEvent, nsInodeType] at ha
    rw [if_neg (fun hcon => LockNamespace.noConfusion hcon.1)]
    refine ⟨?_, ?_⟩ <;>
      simp [HandlerState.getLockTargetEvent, HandlerState.processLock,
        HandlerState.addLock, HandlerState.runAddResolve,
        HandlerState.locker, HandlerState.setLocker,
        HandlerState.emitEvent, HandlerState.removeResolver,
        unlinkParkedState, typeNamespace, nsAddEvent, nsUnlinkEvent,
        nsInodeType, lockEventTable, DirectoryEvent, jsGet, jsSet,
        jsDelete, ha, hi, hn]

/-- Directory metadata for the C3 scenario. -/
def c3DirStats : WatchrStats :=
  { inodeNumber := 7, size := 0, isFile := false, isDirectory := true,
    isSymbolicLink := false }

/-- The state manager contents of the C3 counterexample: directory /d cached
and recorded with inode 7 for both unlinkDir and addDir. -/
def c3Fsm : FileSystemStateManager :=
  { targetInodes := [(.unlinkDir, [("/d", (7, InodeType.dir))]),
      (.addDir, [("/d", (7, InodeType.dir))])],
    paths := [(7, ["/d"])],
    stats := [("/d", c3DirStats)] }

/-- C3 counterexample: in the directory namespace, a removal and a creation
of the identical cached path with the same inode emit nothing at all (no
modified event), because DirectoryEvent has no change entry; the claim
asserts modified would be emitted in each namespace whenever the path is
cached. -/
theorem same_path_dir_no_modified_cex :
    (jsGet c3Fsm.stats "/d").isSome = true ∧
      (((initialHandler c3Fsm 0).getLockTargetEvent .unlinkDir "/d" none
          0).getLockTargetEvent .addDir "/d" none 100).emitted = [] := by
  decide

/-- The state manager contents of the C3 witness: file /a cached and
recorded with inode 7 for both unlink and add. -/
def c3FileFsm : FileSystemStateManager :=
  { targetInodes := [(.unlink, [("/a", (7, InodeType.file))]),
      (.add, [("/a", (7, InodeType.file))])],
    paths := [(7, ["/a"])],
    stats := [("/a", ⟨7, 10, true, false, false⟩)] }

/-- Witness for same_path_republish at a concrete input. -/
theorem same_path_republish_witness :
    (let s1 := (initialHandler c3FileFsm 0).getLockTargetEvent
      (nsUnlinkEvent .file) "/a" (some 250) 0
     let final := (applyTicks s1 [50]).getLockTargetEvent (nsAddEvent .file)
       "/a" (some 250) 100
     final.resolvers = [] ∧
       final.emitted =
         if LockNamespace.file = LockNamespace.file ∧
             (jsGet c3FileFsm.stats "/a").isSome = true
         then [⟨100, FileSystemEvent.change, "/a", none⟩] else []) :=
  same_path_republish .file c3FileFsm 0 7 "/a" 0 100 250 [50] (by decide)
    (by decide) (by decide) (by decide)

/-- C10 (amended): getLockTargetEvent bypasses the lock protocol and emits
immediately whenever the recorded inode is unavailable, which covers a
missing record, a recorded inode number 0 (falsy), and a recorded inode
type that does not match the event kind (getInodeNumber returns undefined
then). The removal side emits the plain unlink event; the creation side
emits through the emit closure, which produces the plain add event unless
the inode index holds a different path under the looked-up key (inode ?? -1),
in which case it emits rename instead: see the counterexample. -/
theorem lock_bypass :
    (∀ (sm : FileSystemStateManager) (p : Path) (e : FileSystemEvent)
      (ino : InodeNumber) (ty ty' : InodeType),
      jsGet ((jsGet sm.targetInodes e).getD []) p = some (ino, ty) →
      ty ≠ ty' → sm.getInodeNumber p e (some ty') = none) ∧
    (∀ (s : HandlerState) (ns : LockNamespace) (p : Path)
      (tmo : Option Nat) (now : Nat),
      (s.fsm.getInodeNumber p (nsUnlinkEvent ns) (some (nsInodeType ns)) =
          none ∨
        s.fsm.getInodeNumber p (nsUnlinkEvent ns) (some (nsInodeType ns)) =
          some 0) →
      s.getLockTargetEvent (nsUnlinkEvent ns) p tmo now =
        s.emitEvent now (lockEventTable ns).unlink p none) ∧
    (∀ (s : HandlerState) (ns : LockNamespace) (p : Path)
      (tmo : Option Nat) (now : Nat),
      (s.fsm.getInodeNumber p (nsAddEvent ns) (some (nsInodeType ns)) =
          none ∨
        s.fsm.getInodeNumber p (nsAddEvent ns) (some (nsInodeType ns)) =
          some 0) →
      s.getLockTargetEvent (nsAddEvent ns) p tmo now =
        s.emitAddOrRename ns
          (s.fsm.getInodeNumber p (nsAddEvent ns) (some (nsInodeType ns)))
          p now) := by
  refine ⟨?_, ?_, ?_⟩
  · intro sm p e ino ty ty' h hty
    simp [FileSystemStateManager.getInodeNumber, h, hty]
  · intro s ns p tmo now h
    cases ns <;>
      simp only [nsUnlinkEvent, nsInodeType] at h ⊢ <;>
      rcases h with h | h <;>
      simp [HandlerState.getLockTargetEvent, HandlerState.processLock,
        HandlerState.unlinkLock, typeNamespace, nsInodeType, h]
  · intro s ns p tmo now h
    cases ns <;>
      simp only [nsAddEvent, nsInodeType] at h ⊢ <;>
      rcases h with h | h <;>
      simp [HandlerState.getLockTargetEvent, HandlerState.processLock,
        HandlerState.addLock, typeNamespace, nsInodeType, h]

/-- The state manager contents of the C10 counterexample: the add event for
/b carries the recorded inode 0 (falsy) and the inode index holds a
different path /other under key 0. -/
def c10Fsm : FileSystemStateManager :=
  { targetInodes := [(.add, [("/b", (0, InodeType.file))])],
    paths := [(0, ["/other"])],
    stats := [] }

/-- C10 counterexample: with a recorded inode number 0 the lock protocol is
bypassed, but the emitted event is rename(/other, /b), not the plain add
event the claim promises, because inodeNumber ?? -1 keeps the falsy 0 and
the inode index lookup finds the other path. -/
theorem lock_bypass_rename_cex :
    ((initialHandler c10Fsm 0).getLockTargetEvent .add "/b" none 0).emitted =
      [⟨0, .rename, "/other", some "/b"⟩] ∧
    ∀ e ∈ ((initialHandler c10Fsm 0).getLockTargetEvent .add "/b" none
      0).emitted, e.event ≠ FileSystemEvent.add := by
  decide

/-- Witness for lock_bypass at concrete inputs. -/
theorem lock_bypass_witness :
    c10Fsm.getInodeNumber "/b" .add (some InodeType.dir) = none ∧
    (initialHandler c10Fsm 0).getLockTargetEvent (nsUnlinkEvent .file) "/x"
        none 5 =
      (initialHandler c10Fsm 0).emitEvent 5 (lockEventTable .file).unlink
        "/x" none ∧
    (initialHandler c10Fsm 0).getLockTargetEvent (nsAddEvent .file) "/b"
        none 5 =
      (initialHandler c10Fsm 0).emitAddOrRename .file
        ((initialHandler c10Fsm 0).fsm.getInodeNumber "/b"
          (nsAddEvent .file) (some (nsInodeType .file))) "/b" 5 :=
  ⟨lock_bypass.1 c10Fsm "/b" .add 0 InodeType.file InodeType.dir (by decide)
      (by decide),
    lock_bypass.2.1 (initialHandler c10Fsm 0) .file "/x" none 5
      (Or.inl (by decide)),
    lock_bypass.2.2 (initialHandler c10Fsm 0) .file "/b" none 5
      (Or.inr (by decide))⟩

theorem unlinkParked_fire (fsm : FileSystemStateManager) (n : Nat)
    (ns : LockNamespace) (i : InodeNumber) (a : Path) (d T : Nat)
    (hT : ¬ T < d) :
    (unlinkParkedState fsm n ns i a d).tick T =
      ⟨fsm, ⟨[], []⟩, ⟨[], []⟩, [],
        [⟨T, (lockEventTable ns).unlink, a, none⟩], n + 1⟩ := by
  cases ns <;>
    simp [HandlerState.tick, tickGo, unlinkParkedState,
      HandlerState.runFree, HandlerState.locker, HandlerState.setLocker,
      HandlerState.emitEvent, HandlerState.removeResolver, lockEventTable,
      FileEvent, DirectoryEvent, jsDelete, hT]

/-- The index of the first multiplexer tick at or past the timeout. -/
def mplexFireIndex (timeout : Nat) : Nat :=
  (timeout + lockResolverInterval - 1) / lockResolverInterval

/-- C7: a removal-class event for path a with a nonzero recorded inode and
no matching creation before the timeout yields exactly one unlink emission,
fired at the first 50ms multiplexer tick at or after the deadline: no
earlier than registration + timeout and no later than registration +
timeout + one tick. The ticks are those of the interval started at
registration, and enough of them elapse to cover the timeout. -/
theorem removal_timeout_fallback (ns : LockNamespace)
    (fsm : FileSystemStateManager) (n : Nat) (i : InodeNumber) (a : Path)
    (t0 timeout count : Nat)
    (hi : i ≠ 0) (htpos : 1 ≤ timeout)
    (hu : fsm.getInodeNumber a (nsUnlinkEvent ns) (some (nsInodeType ns)) =
      some i)
    (hcount : timeout ≤ lockResolverInterval * count) :
    (applyTicks ((initialHandler fsm n).getLockTargetEvent
        (nsUnlinkEvent ns) a (some timeout) t0)
        (multiplexerTicks t0 count)).emitted =
      [⟨t0 + lockResolverInterval * mplexFireIndex timeout,
        (lockEventTable ns).unlink, a, none⟩] ∧
    (applyTicks ((initialHandler fsm n).getLockTargetEvent
        (nsUnlinkEvent ns) a (some timeout) t0)
        (multiplexerTicks t0 count)).resolvers = [] ∧
    t0 + timeout ≤ t0 + lockResolverInterval * mplexFireIndex timeout ∧
    t0 + lockResolverInterval * mplexFireIndex timeout ≤
      t0 + timeout + lockResolverInterval := by
  have h50 : lockResolverInterval = 50 := rfl
  have hqdef : mplexFireIndex timeout = (timeout + 50 - 1) / 50 := rfl
  have hcount50 : timeout ≤ 50 * count := by rw [h50] at hcount; exact hcount
  have hq1 : 1 ≤ mplexFireIndex timeout := by rw [hqdef]; omega
  have hlow : timeout ≤ 50 * mplexFireIndex timeout := by rw [hqdef]; omega
  have hhigh : 50 * mplexFireIndex timeout ≤ timeout + 49 := by
    rw [hqdef]; omega
  have hqc : mplexFireIndex timeout ≤ count := by rw [hqdef]; omega
  set q := mplexFireIndex timeout with hq
  have hq1e : q - 1 + 1 = q := by omega
  have hsplit : multiplexerTicks t0 count =
      (multiplexerTicks t0 (q - 1) ++
        [t0 + lockResolverInterval * (q - 1 + 1)]) ++
      ((List.range (count - q)).map
        (fun k => t0 + lockResolverInterval * (q + k + 1))) := by
    have hcnt : count = (q - 1 + 1) + (count - q) := by omega
    conv_lhs => rw [multiplexerTicks, hcnt]
    simp only [multiplexerTicks, List.range_add, List.map_append,
      List.range_succ, List.map_map, List.map_cons, List.map_nil]
    congr 1
    apply List.map_congr_left
    intro k _
    simp only [Function.comp]
    congr 1
    congr 1
    omega
  rw [hsplit, applyTicks_append,
    unlinkLock_parks ns fsm n i a t0 timeout hi hu, applyTicks_append]
  have hnof : applyTicks (unlinkParkedState fsm n ns i a (t0 + timeout))
      (multiplexerTicks t0 (q - 1)) =
      unlinkParkedState fsm n ns i a (t0 + timeout) := by
    apply applyTicks_no_fire
    intro t ht e he
    rw [unlinkParked_resolvers] at he
    simp only [List.mem_singleton] at he
    subst he
    rw [multiplexerTicks] at ht
    rcases List.mem_map.mp ht with ⟨k, hk, rfl⟩
    have hklt : k < q - 1 := List.mem_range.mp hk
    show t0 + lockResolverInterval * (k + 1) < t0 + timeout
    rw [h50]
    omega
  rw [hnof]
  have hfire : applyTicks (unlinkParkedState fsm n ns i a (t0 + timeout))
      [t0 + lockResolverInterval * (q - 1 + 1)] =
      ⟨fsm, ⟨[], []⟩, ⟨[], []⟩, [],
        [⟨t0 + lockResolverInterval * q, (lockEventTable ns).unlink, a,
          none⟩], n + 1⟩ := by
    show (unlinkParkedState fsm n ns i a (t0 + timeout)).tick
        (t0 + lockResolverInterval * (q - 1 + 1)) = _
    rw [hq1e]
    apply unlinkParked_fire
    rw [h50]
    omega
  rw [hfire, applyTicks_resolvers_nil _ _ rfl]
  refine ⟨rfl, rfl, ?_, ?_⟩ <;> rw [h50] <;> omega

/-- Witness for removal_timeout_fallback at a concrete input: timeout 250
with five 50ms ticks; the unlink fires exactly at 250. -/
theorem removal_timeout_fallback_witness :
    (applyTicks ((initialHandler c2Fsm 0).getLockTargetEvent
        (nsUnlinkEvent .file) "/a" (some 250) 0)
        (multiplexerTicks 0 5)).emitted =
      [⟨0 + lockResolverInterval * mplexFireIndex 250,
        (lockEventTable .file).unlink, "/a", none⟩] ∧
    (applyTicks ((initialHandler c2Fsm 0).getLockTargetEvent
        (nsUnlinkEvent .file) "/a" (some 250) 0)
        (multiplexerTicks 0 5)).resolvers = [] ∧
    0 + 250 ≤ 0 + lockResolverInterval * mplexFireIndex 250 ∧
    0 + lockResolverInterval * mplexFireIndex 250 ≤
      0 + 250 + lockResolverInterval :=
  removal_timeout_fallback .file c2Fsm 0 7 "/a" 0 250 5 (by decide)
    (by decide) (by decide) (by decide)

end Watchr
